import Mathlib

/-!
# ST-Calendar-Sync: verification of the delta reconciliation engine

Shallow embedding of the core of the `st-calendar-sync` repository:

* `src/utils/time.js` — the Day-Splitter (`splitMultiDayEvent`), modelled over
  millisecond timestamps (`Int`, UTC instants) and an abstract `Zone` structure
  capturing a fixed target timezone (luxon's local-day operations
  `hasSame 'day'`, `startOf 'day'`, `endOf 'day'` in that zone).
* `src/utils/normalize.js` — the Event Normalizer and the v3 dedupe key.
* `src/services/mapping.js` — the Payload Mapper.
* `src/services/sync.js` — the Reconciliation Engine, embedded in a state +
  trace + failure-oracle monad `M`: every external call (ServiceTitan API,
  mapping-store sheet) is recorded in an ordered trace and its outcome is
  provided by an `Env` oracle, which lets theorems quantify over failure
  injection points.
* the sheet accessor (`updateDeltaState`, `findEventMapping`,
  `updateEventMapping`, `deleteEventMapping`) — from the repository's sheet
  module; sheet rows are modelled structurally (JSON round-trips of the id
  array are modelled as identity, wall-clock timestamp columns are omitted).
* `src/services/cleanup.js` — the duplicate-cleanup grouping logic.

Conventions: ISO-8601 UTC timestamp strings are identified with their
millisecond instants (`Int`); the canonical renderings/parsers of those
strings are abstract function fields of `Globals`. JavaScript truthiness on
numbers / optional values is modelled explicitly (`jsTruthyNum`,
`jsTruthyIdx`). JS string helpers that the engine applies to ASCII tags are
modelled over the underlying character lists so that all definitions reduce
in the kernel.
-/

/-- Models JS `String.prototype.toLowerCase` for the ASCII strings the engine
lowercases (availability / sensitivity tags). -/
def jsToLower (s : String) : String :=
  ⟨s.data.map fun c => if 'A' ≤ c ∧ c ≤ 'Z' then Char.ofNat (c.toNat + 32) else c⟩

/-- Models JS `String.prototype.trim` (drop leading/trailing whitespace). -/
def jsTrim (s : String) : String :=
  ⟨((s.data.dropWhile Char.isWhitespace).reverse.dropWhile Char.isWhitespace).reverse⟩

/-- JS truthiness of a number (`0` is falsy). -/
def jsTruthyNum (n : Nat) : Bool := n ≠ 0

/-- JS truthiness of a possibly-absent number, e.g. `previousIds[index]` or a
row index: `undefined` and `0` are falsy. -/
def jsTruthyIdx : Option Nat → Bool
  | none => false
  | some n => jsTruthyNum n

/-- Two-digit zero padding, as used by luxon's `hh`/`mm`/`ss` format tokens. -/
def pad2 (n : Nat) : String :=
  if n < 10 then "0" ++ toString n else toString n

/-- Models `Interval.fromDateTimes(start, end).toDuration().toFormat('hh:mm:ss')`
on a duration of `ms` milliseconds. -/
def formatHMS (ms : Int) : String :=
  let t := ms.toNat
  pad2 (t / 3600000) ++ ":" ++ pad2 (t % 3600000 / 60000) ++ ":" ++ pad2 (t % 60000 / 1000)

/-!
## Time model

A `Zone` is the local-calendar structure of a fixed IANA timezone: `dayOf t`
is the index of the local calendar day containing the UTC instant `t`
(milliseconds), and `dayStart d` is the first instant of local day `d`.
The four laws say exactly that the days partition the timeline into
non-empty, ordered intervals — true of real timezones including ones with
DST transitions (days of 23/24/25 hours).
-/

structure Zone where
  dayOf : Int → Int
  dayStart : Int → Int
  dayStart_le_self : ∀ t : Int, dayStart (dayOf t) ≤ t
  lt_dayStart_succ : ∀ t : Int, t < dayStart (dayOf t + 1)
  dayStart_lt_dayStart : ∀ {d e : Int}, d < e → dayStart d < dayStart e
  dayOf_dayStart : ∀ d : Int, dayOf (dayStart d) = d

/-- luxon `a.hasSame(b, 'day')` in the target zone. -/
def Zone.hasSameDay (z : Zone) (a b : Int) : Bool := z.dayOf a == z.dayOf b

/-- luxon `t.startOf('day')` in the target zone. -/
def Zone.startOfDay (z : Zone) (t : Int) : Int := z.dayStart (z.dayOf t)

/-- luxon `t.endOf('day')` in the target zone: the last millisecond of the
local day containing `t`. -/
def Zone.endOfDay (z : Zone) (t : Int) : Int := z.dayStart (z.dayOf t + 1) - 1

/-- One `{start, end}` block produced by the Day-Splitter. `stop` models the
source's `end` field (a Lean keyword). -/
structure Block where
  start : Int
  stop : Int
  deriving DecidableEq, Repr

/-- The `while (cursor < end)` loop of `splitMultiDayEvent`, with explicit
fuel (the loop advances `cursor` to the start of the next local day each
iteration, so `dayOf e - dayOf s + 1` iterations always suffice; see
`splitGo_fuel_free`). Mirrors src/utils/time.js lines 27–51. -/
def splitGo (z : Zone) (s e : Int) : Nat → Int → List Block
  | 0, _ => []
  | fuel + 1, cursor =>
    if cursor < e then
      let currentDayEnd := z.endOfDay cursor
      let block :=
        if z.hasSameDay cursor s then
          -- First day: starts at event start, ends at local day's end
          { start := s, stop := if e < currentDayEnd then e else currentDayEnd }
        else if z.hasSameDay cursor e then
          -- Last day: starts at local day's beginning, ends at event end
          { start := z.startOfDay cursor, stop := e }
        else
          -- Full intermediate day
          { start := z.startOfDay cursor, stop := currentDayEnd }
      block :: splitGo z s e fuel (z.startOfDay (currentDayEnd + 1))
    else []

/-- `splitMultiDayEvent(startISO, endISO)` of src/utils/time.js, over instants:
splits a (possibly multi-day) event into single-local-day blocks in the fixed
target timezone. -/
def splitMultiDayEvent (z : Zone) (s e : Int) : List Block :=
  if z.hasSameDay s e then [{ start := s, stop := e }]
  else splitGo z s e ((z.dayOf e - z.dayOf s).toNat + 1) s

/-- Milliseconds per (nominal) day. -/
def dayMs : Int := 86400000

/-- A concrete fixed-offset instance of `Zone`: UTC−6 (America/Chicago in
winter, the season of all concrete scenarios below). Local day `d` covers the
UTC instants `[d*86400000 + 21600000, (d+1)*86400000 + 21600000)`. -/
def utc6 : Zone where
  dayOf t := (t - 21600000).fdiv dayMs
  dayStart d := d * dayMs + 21600000
  dayStart_le_self t := by
    have h : (0 : Int) ≤ dayMs := by decide
    dsimp only
    rw [Int.fdiv_eq_ediv _ h]
    simp only [dayMs]
    omega
  lt_dayStart_succ t := by
    have h : (0 : Int) ≤ dayMs := by decide
    dsimp only
    rw [Int.fdiv_eq_ediv _ h]
    simp only [dayMs]
    omega
  dayStart_lt_dayStart := by
    intro d e h
    have hm : (0 : Int) < dayMs := by decide
    dsimp only
    nlinarith
  dayOf_dayStart d := by
    have h : (0 : Int) ≤ dayMs := by decide
    dsimp only
    rw [Int.fdiv_eq_ediv _ h]
    rw [show d * dayMs + 21600000 - 21600000 = d * dayMs by ring]
    exact Int.mul_ediv_cancel d (by decide : dayMs ≠ 0)

/-!
## Globals

Ambient collaborators of the pure layer: the fixed target timezone and the
(opaque) ISO-8601 rendering/parsing functions of luxon, plus `process.env`.
UTC instants are identified with their canonical ISO strings; the renderers
are abstract fields so no theorem depends on the textual format.
-/

structure Globals where
  zone : Zone
  isoUtc : Int → String
  isoZoned : Int → String
  fromIsoZoned : String → String → Option Int
  fromIso : String → Option Int
  envVar : String → Option String

/-- JS `x || dflt` for an optional string (absent and `''` are falsy). -/
def jsOrStr (o : Option String) (dflt : String) : String :=
  match o with
  | none => dflt
  | some s => if s = "" then dflt else s

/-!
## Event Normalizer (src/utils/normalize.js)
-/

structure RawDateTime where
  dateTime : Option String
  timeZone : Option String

structure RawAttendee where
  address : Option String
  name : Option String
  type : Option String

/-- A raw Graph calendar event as consumed by `normalizeGraphEvent` (fields
absent on the JS object are `none`; `removedMarker` is the presence of the
`@removed` tombstone marker). -/
structure RawEvent where
  id : Option String
  iCalUId : Option String
  subject : Option String
  start : Option RawDateTime
  stop : Option RawDateTime
  isAllDay : Bool
  showAs : Option String
  sensitivity : Option String
  locationDisplayName : Option String
  attendees : List RawAttendee
  bodyPreview : Option String
  lastModifiedDateTime : Option String
  removedMarker : Bool

structure Attendee where
  email : String
  name : String
  type : String
  deriving DecidableEq

/-- The canonical internal event (timestamps as UTC instants; `stop` models
the source's `end` field). -/
structure NormalizedEvent where
  id : String
  iCalUId : String
  subject : String
  start : Option Int
  stop : Option Int
  isAllDay : Bool
  showAs : String
  isPrivate : Bool
  location : String
  attendees : List Attendee
  bodyPreview : String
  lastModifiedDateTime : Option Int
  isRemoved : Bool
  deriving DecidableEq

/-- `normalizeDateTime` of src/utils/normalize.js: parse in the declared zone
(defaulting to UTC), convert to a UTC instant; `none` when absent/invalid. -/
def normalizeDateTime (G : Globals) (dateObj : Option RawDateTime) : Option Int :=
  match dateObj with
  | none => none
  | some dobj =>
    match dobj.dateTime with
    | none => none
    | some dt =>
      if dt = "" then none
      else G.fromIsoZoned (jsOrStr dobj.timeZone "UTC") dt

/-- `normalizeDateTimeValue` of src/utils/normalize.js. -/
def normalizeDateTimeValue (G : Globals) (value : Option String) : Option Int :=
  match value with
  | none => none
  | some v => if v = "" then none else G.fromIso v

/-- `normalizeGraphEvent` of src/utils/normalize.js (current version, with
`iCalUId`). Never fails; absent fields default to safe empty values. -/
def normalizeGraphEvent (G : Globals) (event : RawEvent) : NormalizedEvent :=
  { id := event.id.getD ""
    iCalUId := event.iCalUId.getD ""
    subject := event.subject.getD ""
    start := normalizeDateTime G event.start
    stop := normalizeDateTime G event.stop
    isAllDay := event.isAllDay
    showAs := jsToLower (jsOrStr event.showAs "busy")
    isPrivate := jsToLower (event.sensitivity.getD "") = "private"
    location := event.locationDisplayName.getD ""
    attendees := event.attendees.map fun a =>
      { email := a.address.getD "", name := a.name.getD "", type := a.type.getD "" }
    bodyPreview := event.bodyPreview.getD ""
    lastModifiedDateTime := normalizeDateTimeValue G event.lastModifiedDateTime
    isRemoved := event.removedMarker }

def DEDUPE_KEY_VERSION : String := "v3"

/-- Rendering of a normalized optional timestamp back to its ISO string, as
the JS code holds it (`null` renders as `''` under `|| ''`). -/
def isoOpt (G : Globals) (t : Option Int) : String :=
  match t with
  | none => ""
  | some v => G.isoUtc v

/-- `getEventDedupeKey` of src/utils/normalize.js: the v3 composite content
fingerprint. -/
def getEventDedupeKey (G : Globals) (event : NormalizedEvent) : String :=
  String.intercalate ":"
    [ DEDUPE_KEY_VERSION
    , event.id
    , event.iCalUId
    , isoOpt G event.lastModifiedDateTime
    , if event.isPrivate then "P" else "N"
    , event.showAs
    , if event.isAllDay then "A" else "T"
    , isoOpt G event.start
    , isoOpt G event.stop
    , if event.isPrivate then "" else event.subject ]

/-- `getStableEventKey` of src/utils/normalize.js: mapping-table identity. -/
def getStableEventKey (G : Globals) (event : NormalizedEvent) : String :=
  let uid := jsTrim event.iCalUId
  let start := isoOpt G event.start
  let stop := isoOpt G event.stop
  if uid ≠ "" ∧ start ≠ "" ∧ stop ≠ "" then
    uid ++ ":" ++ start ++ ":" ++ stop
  else
    event.id ++ ":" ++ start ++ ":" ++ stop

/-!
## Payload Mapper (src/services/mapping.js)
-/

structure UserConfig where
  outlook_upn : String
  st_technician_id : String
  st_timesheet_code_id : String
  enabled : Bool
  deriving DecidableEq

/-- One ServiceTitan non-job appointment payload. -/
structure STPayload where
  technicianId : String
  start : String
  duration : String
  name : String
  allDay : Bool
  showOnTechnicianSchedule : Bool
  clearDispatchBoard : Bool
  clearTechnicianView : Bool
  removeTechnicianFromCapacityPlanning : Bool
  active : Bool
  deriving DecidableEq, Repr

/-- Reading of a boolean `process.env` knob as done inline in
src/services/mapping.js: `String(process.env.K || '').trim().toLowerCase()`. -/
def envKnob (G : Globals) (key : String) : String :=
  jsToLower (jsTrim (jsOrStr (G.envVar key) ""))

/-- `mapEventToServiceTitanPayloads` of src/services/mapping.js: one payload
per day-block. The engine only invokes this with committed start/end
(`getD 0` models the JS coercion that would otherwise occur). -/
def mapEventToServiceTitanPayloads (G : Globals) (event : NormalizedEvent)
    (userConfig : UserConfig) : List STPayload :=
  let subject := if event.isPrivate then "Busy"
                 else if event.subject = "" then "Calendar Event" else event.subject
  let eventBlocks := splitMultiDayEvent G.zone (event.start.getD 0) (event.stop.getD 0)
  let showOnTechnicianSchedule := true
  let clearDispatchBoard := if envKnob G "ST_CLEAR_DISPATCH_BOARD" = "false" then false else true
  let clearTechnicianView := if envKnob G "ST_CLEAR_TECHNICIAN_VIEW" = "true" then true else false
  let removeFromCapacity := if envKnob G "ST_REMOVE_FROM_CAPACITY" = "false" then false else true
  eventBlocks.map fun block =>
    { technicianId := userConfig.st_technician_id
      start := G.isoZoned block.start
      duration := formatHMS (block.stop - block.start)
      name := subject
      allDay := event.isAllDay
      showOnTechnicianSchedule := showOnTechnicianSchedule
      clearDispatchBoard := clearDispatchBoard
      clearTechnicianView := clearTechnicianView
      removeTechnicianFromCapacityPlanning := removeFromCapacity
      active := true }

/-!
## Cleanup engine, pure part (src/services/cleanup.js)
-/

/-- A ServiceTitan non-job appointment as listed by the API. -/
structure Appt where
  id : String
  technicianId : String
  start : String
  duration : String
  name : String
  allDay : Bool
  showOnTechnicianSchedule : Bool
  clearDispatchBoard : Bool
  clearTechnicianView : Bool
  removeTechnicianFromCapacityPlanning : Bool
  active : Bool
  deriving DecidableEq

/-- `isOurSyncLikeAppointment` of src/services/cleanup.js. -/
def isOurSyncLikeAppointment (appt : Appt) : Bool :=
  let name := jsTrim appt.name
  (name = "Busy" ∨ name = "Out of Office")
    ∧ appt.showOnTechnicianSchedule
    ∧ appt.clearDispatchBoard
    ∧ appt.clearTechnicianView = false
    ∧ appt.removeTechnicianFromCapacityPlanning
    ∧ appt.active

/-- `makeSignature` of src/services/cleanup.js. -/
def makeSignature (appt : Appt) : String :=
  String.intercalate "|"
    [ appt.technicianId
    , appt.start
    , appt.duration
    , appt.name
    , if appt.allDay then "A" else "T"
    , if appt.showOnTechnicianSchedule then "S1" else "S0"
    , if appt.clearDispatchBoard then "D1" else "D0"
    , if appt.clearTechnicianView then "V1" else "V0"
    , if appt.removeTechnicianFromCapacityPlanning then "C1" else "C0"
    , if appt.active then "X1" else "X0" ]

/-- Code-unit lexicographic order on character lists. -/
def charsLe : List Char → List Char → Bool
  | [], _ => true
  | _ :: _, [] => false
  | a :: as, b :: bs =>
    if a.toNat < b.toNat then true
    else if b.toNat < a.toNat then false
    else charsLe as bs

/-- Models the comparator `(a, b) => a.id.localeCompare(b.id)` of
src/services/cleanup.js on the id strings involved (numeric ServiceTitan id
strings, on which default collation coincides with code-unit order). -/
def localeLe (a b : String) : Bool := charsLe a.data b.data

/-- The signature keys of a listing, in first-seen order — the iteration
order of the JS `Map` built by `dedupeNonJobsThisWeekForward`. -/
def groupKeysOf (appts : List Appt) : List String :=
  (appts.map makeSignature).dedup

/-- The entries `{id, appt}` of one signature group, in listing order. -/
def groupEntries (appts : List Appt) (key : String) : List (String × Appt) :=
  (appts.filter fun a => makeSignature a = key).map fun a => (a.id, a)

/-- The deletions planned for one signature group: the body of the
`for (const [, entries] of groups.entries())` loop of
`dedupeNonJobsThisWeekForward` (src/services/cleanup.js lines 125–158).
Groups of size ≤ 1 are skipped; if any member id is referenced by the
mapping store only unreferenced members are deleted; otherwise the entries
are stably sorted by id (JS `Array.prototype.sort` is stable) and all but
the first are deleted. -/
def planGroupDeletions (referenced : List String) (entries : List (String × Appt)) :
    List (String × Appt) :=
  if entries.length ≤ 1 then []
  else
    let referencedEntries := entries.filter fun e => referenced.contains e.1
    let unref := entries.filter fun e => !(referenced.contains e.1)
    if referencedEntries.length > 0 then unref
    else (List.insertionSort (fun a b => localeLe a.1 b.1 = true) entries).drop 1

/-!
## Mapping store rows and the effect model

The sheet tables are modelled structurally: `MappingRow` is one `EventMap`
row (`st_nonjob_ids` models the JSON round-trip of `st_nonjob_ids_json`,
which `JSON.stringify`/`parseJsonArray` make the identity; the wall-clock
`last_synced_utc` column is omitted); `DeltaRow` is one `DeltaState` row.
Row indices are 1-based sheet rows, data starting at row 2, exactly as in
the sheet module.

Every external call of the engine (ServiceTitan API, sheet read/write,
Graph fetch) is recorded in an ordered trace, and its outcome is drawn from
an `Env` oracle indexed by the position of the call in the trace, so
theorems can quantify over arbitrary failure injections. `Outcome.notFound`
models an HTTP 404 (treated as success by `deleteNonJob`, as failure by
`updateNonJob`); `Outcome.fail` any other thrown error.
-/

structure MappingRow where
  outlook_upn : String
  outlook_event_id : String
  st_nonjob_ids : List Nat
  last_hash : String
  status : String
  deriving DecidableEq

structure DeltaRow where
  outlook_upn : String
  delta_link : String
  deriving DecidableEq

/-- Models `getReferencedNonJobIdsSet` of src/services/cleanup.js: every
truthy id appearing in some mapping row's id list, as strings. -/
def referencedNonJobIds (rows : List MappingRow) : List String :=
  (rows.map fun r => (r.st_nonjob_ids.filter fun i => jsTruthyNum i).map toString).flatten

/-- A mapping row as returned by `findEventMapping` (row fields plus its
1-based `rowIndex`). -/
structure Mapping where
  outlook_upn : String
  outlook_event_id : String
  st_nonjob_ids : List Nat
  last_hash : String
  status : String
  rowIndex : Nat
  deriving DecidableEq

inductive Call
  | stCreate (payload : STPayload)
  | stUpdate (appointmentId : Nat) (payload : STPayload)
  | stDelete (appointmentId : Nat)
  | emFind (upn key : String)
  | emFindByGid (upn gid : String)
  | emWrite (upn key : String) (ids : List Nat) (hash status : String) (rowIndex : Option Nat)
  | deltaRead (upn : String)
  | deltaWrite (upn link : String) (rowIndex : Option Nat)
  | techMapRead
  | graphDelta (upn : String) (deltaLink : Option String)
  deriving DecidableEq

inductive Outcome
  | ok
  | notFound
  | fail
  deriving DecidableEq

/-- Failure/result oracle for a run: the `n`-th external call of the run
gets outcome `outcome n`; if it is a create it returns id `newId n`; the
Graph delta fetch returns `fetch`. -/
structure Env where
  outcome : Nat → Outcome
  newId : Nat → Nat
  fetch : Except String (List RawEvent × String)

structure ErrRec where
  userUpn : String
  eventId : Option String
  message : String
  deriving DecidableEq

/-- The per-run summary of src/services/sync.js (`createSummary`); the
wall-clock `startedAt`/`finishedAt` fields are omitted. -/
structure Summary where
  calendarsProcessed : Nat
  eventsFetched : Nat
  eventsUpserted : Nat
  eventsSkipped : Nat
  errors : List ErrRec
  deriving DecidableEq

/-- `createSummary` of src/services/sync.js. -/
def createSummary : Summary :=
  { calendarsProcessed := 0, eventsFetched := 0, eventsUpserted := 0
    eventsSkipped := 0, errors := [] }

structure Store where
  techMap : List UserConfig
  deltaRows : List DeltaRow
  eventMap : List MappingRow
  deriving DecidableEq

structure World where
  store : Store
  summary : Summary
  trace : List Call

/-- The effect monad: state (sheet store, summary, call trace) with
exceptions carrying the JS error message. A propagating exception keeps all
mutations already performed, exactly like a thrown JS error. -/
def M (α : Type) : Type := World → Except String α × World

def M.pureM {α : Type} (a : α) : M α := fun w => (Except.ok a, w)

def M.bindM {α β : Type} (x : M α) (f : α → M β) : M β := fun w =>
  match x w with
  | (Except.ok a, w') => f a w'
  | (Except.error e, w') => (Except.error e, w')

instance : Monad M where
  pure := M.pureM
  bind := M.bindM

/-- JS `throw new Error(msg)`. -/
def M.throwM {α : Type} (msg : String) : M α := fun w => (Except.error msg, w)

/-- JS `try { body } catch (e) { handler }`. -/
def M.tryCatchM {α : Type} (body : M α) (handler : String → M α) : M α := fun w =>
  match body w with
  | (Except.ok a, w') => (Except.ok a, w')
  | (Except.error e, w') => handler e w'

def M.getW : M World := fun w => (Except.ok w, w)

def M.modifyW (f : World → World) : M Unit := fun w => (Except.ok (), f w)

def errStCreate : String := "servicetitan.createNonJob failed"
def errStUpdate : String := "servicetitan.updateNonJob failed"
def errStDelete : String := "servicetitan.deleteNonJob failed"
def errSheetRead : String := "sheets read failed"
def errSheetWrite : String := "sheets write failed"

/-- Record one external call in the trace and obtain its oracle outcome and
its position. -/
def extCall (env : Env) (c : Call) : M (Outcome × Nat) := fun w =>
  (Except.ok (env.outcome w.trace.length, w.trace.length),
   { w with trace := w.trace ++ [c] })

/-- `servicetitan.createNonJob`: POST, returns the new appointment id. -/
def stCreateNonJob (env : Env) (payload : STPayload) : M Nat := do
  let r ← extCall env (Call.stCreate payload)
  match r.1 with
  | Outcome.fail => M.throwM errStCreate
  | _ => pure (env.newId r.2)

/-- `servicetitan.updateNonJob`: PUT; fails on any non-2xx, including 404. -/
def stUpdateNonJob (env : Env) (appointmentId : Nat) (payload : STPayload) : M Unit := do
  let r ← extCall env (Call.stUpdate appointmentId payload)
  match r.1 with
  | Outcome.ok => pure ()
  | _ => M.throwM errStUpdate

/-- `servicetitan.deleteNonJob`: DELETE; a 404 is swallowed ("already
missing"), any other error is rethrown (src/api/servicetitan.js 233–247). -/
def stDeleteNonJob (env : Env) (appointmentId : Nat) : M Unit := do
  let r ← extCall env (Call.stDelete appointmentId)
  match r.1 with
  | Outcome.fail => M.throwM errStDelete
  | _ => pure ()

/-- First `EventMap` row matching `(upn, key)`, with its 1-based row index
(data rows start at index 2), as scanned by the sheet module's
`findEventMapping`. -/
def findMappingRowIdx (rows : List MappingRow) (upn key : String) : Option (Nat × MappingRow) :=
  go 0 rows
where
  go : Nat → List MappingRow → Option (Nat × MappingRow)
    | _, [] => none
    | i, r :: rest =>
      if r.outlook_upn = upn ∧ r.outlook_event_id = key then some (i + 2, r)
      else go (i + 1) rest

def Mapping.ofRow (p : Nat × MappingRow) : Mapping :=
  { outlook_upn := p.2.outlook_upn, outlook_event_id := p.2.outlook_event_id
    st_nonjob_ids := p.2.st_nonjob_ids, last_hash := p.2.last_hash
    status := p.2.status, rowIndex := p.1 }

/-- `sheets.findEventMapping` (sheet module): lookup by `(upn, stable key)`. -/
def findEventMapping (env : Env) (upn key : String) : M (Option Mapping) := do
  let r ← extCall env (Call.emFind upn key)
  match r.1 with
  | Outcome.fail => M.throwM errSheetRead
  | _ => do
    let w ← M.getW
    pure ((findMappingRowIdx w.store.eventMap upn key).map Mapping.ofRow)

/-- The status tag written by the engine: `` `SYNCED|gid=${id}` ``. -/
def statusWithGid (gid : String) : String := "SYNCED|gid=" ++ gid

/-- First `EventMap` row of `upn` whose status carries the Graph-id marker. -/
def findGidRowIdx (rows : List MappingRow) (upn gid : String) : Option (Nat × MappingRow) :=
  go 0 rows
where
  go : Nat → List MappingRow → Option (Nat × MappingRow)
    | _, [] => none
    | i, r :: rest =>
      if r.outlook_upn = upn ∧ r.status = statusWithGid gid then some (i + 2, r)
      else go (i + 1) rest

/-- Modelled from the spec: `sheets.findEventMappingByGraphId`, the
"secondary lookup of mapping-by-provider-identity (for tombstone handling)"
(§6), is called by the engine but its definition is not among the provided
sheet-module sources. Per the engine's comment ("lookup via status gid=...
marker") and the status tag the engine itself writes, it returns the first
mapping row of the user whose status carries the `gid=` marker of the given
Graph id. -/
def findEventMappingByGraphId (env : Env) (upn gid : String) : M (Option Mapping) := do
  let r ← extCall env (Call.emFindByGid upn gid)
  match r.1 with
  | Outcome.fail => M.throwM errSheetRead
  | _ => do
    let w ← M.getW
    pure ((findGidRowIdx w.store.eventMap upn gid).map Mapping.ofRow)

/-- `sheets.updateEventMapping` (sheet module): write the six-column row,
updating in place when a truthy row index is given, else appending. -/
def updateEventMapping (env : Env) (upn key : String) (stNonJobIds : List Nat)
    (lastHash status : String) (existingRowIndex : Option Nat) : M Unit := do
  let r ← extCall env (Call.emWrite upn key stNonJobIds lastHash status existingRowIndex)
  match r.1 with
  | Outcome.fail => M.throwM errSheetWrite
  | _ =>
    let row : MappingRow :=
      { outlook_upn := upn, outlook_event_id := key, st_nonjob_ids := stNonJobIds
        last_hash := lastHash, status := status }
    M.modifyW fun w =>
      { w with store := { w.store with eventMap :=
          (if jsTruthyIdx existingRowIndex then
            w.store.eventMap.set (existingRowIndex.getD 0 - 2) row
          else
            w.store.eventMap ++ [row]) } }

/-- `sheets.deleteEventMapping` (sheet module): soft-delete — mark the row
`DELETED` with a cleared id list, keeping the hash and the row itself. The
engine always passes the already-looked-up mapping as third argument. -/
def deleteEventMapping (env : Env) (upn key : String) (existingMapping : Option Mapping) : M Unit :=
  match existingMapping with
  | some m =>
    if jsTruthyNum m.rowIndex then
      updateEventMapping env upn key [] m.last_hash "DELETED" (some m.rowIndex)
    else pure ()
  | none => pure ()

/-- The per-user cursor state returned by `sheets.getDeltaState`. -/
structure DeltaState where
  rowIndex : Option Nat
  delta_link : Option String
  deriving DecidableEq

def findDeltaRowIdx (rows : List DeltaRow) (upn : String) : Option (Nat × DeltaRow) :=
  go 0 rows
where
  go : Nat → List DeltaRow → Option (Nat × DeltaRow)
    | _, [] => none
    | i, r :: rest =>
      if r.outlook_upn = upn then some (i + 2, r) else go (i + 1) rest

/-- `sheets.getDeltaState`: the user's cursor row, or the initial-sync
default (`rowIndex = null`, no delta link). -/
def getDeltaState (env : Env) (upn : String) : M DeltaState := do
  let r ← extCall env (Call.deltaRead upn)
  match r.1 with
  | Outcome.fail => M.throwM errSheetRead
  | _ => do
    let w ← M.getW
    match findDeltaRowIdx w.store.deltaRows upn with
    | some p => pure { rowIndex := some p.1, delta_link := some p.2.delta_link }
    | none => pure { rowIndex := none, delta_link := none }

/-- `sheets.updateDeltaState`: persist the continuation cursor row (update in
place on a truthy row index, else append). -/
def updateDeltaState (env : Env) (upn newDeltaLink : String) (existingRowIndex : Option Nat) : M Unit := do
  let r ← extCall env (Call.deltaWrite upn newDeltaLink existingRowIndex)
  match r.1 with
  | Outcome.fail => M.throwM errSheetWrite
  | _ =>
    let row : DeltaRow := { outlook_upn := upn, delta_link := newDeltaLink }
    M.modifyW fun w =>
      { w with store := { w.store with deltaRows :=
          (if jsTruthyIdx existingRowIndex then
            w.store.deltaRows.set (existingRowIndex.getD 0 - 2) row
          else
            w.store.deltaRows ++ [row]) } }

/-- `sheets.getTechMap`: the technician configuration table. -/
def getTechMap (env : Env) : M (List UserConfig) := do
  let r ← extCall env Call.techMapRead
  match r.1 with
  | Outcome.fail => M.throwM errSheetRead
  | _ => do
    let w ← M.getW
    pure w.store.techMap

/-- `graph.getDeltaEvents`: the batch fetch; its result (or batch-level
failure) is the `fetch` component of the oracle. -/
def getDeltaEvents (env : Env) (upn : String) (deltaLink : Option String) : M (List RawEvent × String) := do
  let _ ← extCall env (Call.graphDelta upn deltaLink)
  match env.fetch with
  | Except.ok result => pure result
  | Except.error e => M.throwM e

/-!
## Reconciliation Engine (src/services/sync.js)

`parseJsonArray(existingMapping.st_nonjob_ids_json)` is modelled by reading
the structurally stored `st_nonjob_ids` list (the JSON round-trip is the
identity on what this engine itself writes). `console.log`/`console.warn`
calls are not modelled.
-/

/-- `isAvailabilityEvent` of src/services/sync.js. -/
def isAvailabilityEvent (showAs : String) : Bool :=
  let value := jsToLower showAs
  value = "free" ∨ value = "available"

/-- `isSyncableBusyOrOof` of src/services/sync.js. -/
def isSyncableBusyOrOof (showAs : String) : Bool :=
  let value := jsToLower showAs
  value = "busy" ∨ value = "oof"

/-- The `for (const appointmentId of existingIds) await deleteNonJob(...)`
loop of `deleteMappedEvent` (src/services/sync.js 48–50). There is no
per-id catch: a failing delete propagates immediately. -/
def deleteIdsLoop (env : Env) : List Nat → M Unit
  | [] => pure ()
  | appointmentId :: rest => do
    stDeleteNonJob env appointmentId
    deleteIdsLoop env rest

/-- `deleteMappedEvent` of src/services/sync.js: delete all mapped
ServiceTitan ids, then soft-delete the mapping row. -/
def deleteMappedEvent (env : Env) (userUpn outlookEventId : String)
    (existingMapping : Mapping) : M Unit := do
  deleteIdsLoop env existingMapping.st_nonjob_ids
  deleteEventMapping env userUpn outlookEventId (some existingMapping)

/-- One position of the upsert loop (src/services/sync.js 60–82): reuse the
positional previous id via update when truthy; on update failure create a
replacement and best-effort delete the stale id; otherwise create. -/
def reconcilePosition (env : Env) (payload : STPayload) (prev : Option Nat) : M Nat :=
  if jsTruthyIdx prev then
    M.tryCatchM
      (do stUpdateNonJob env (prev.getD 0) payload; pure (prev.getD 0))
      (fun _ => do
        let appointmentId ← stCreateNonJob env payload
        M.tryCatchM (stDeleteNonJob env (prev.getD 0)) (fun _ => pure ())
        pure appointmentId)
  else
    stCreateNonJob env payload

/-- The indexed `for (let index = 0; index < payloads.length; ...)` loop of
`upsertServiceTitanAppointments`, accumulating `currentIds` in order. -/
def upsertLoop (env : Env) (previousIds : List Nat) :
    List STPayload → Nat → List Nat → M (List Nat)
  | [], _, currentIds => pure currentIds
  | payload :: rest, index, currentIds => do
    let appointmentId ← reconcilePosition env payload previousIds[index]?
    upsertLoop env previousIds rest (index + 1) (currentIds ++ [appointmentId])

/-- `upsertServiceTitanAppointments` of src/services/sync.js 54–90:
positional update/create per payload, then delete surplus previous ids
(`for (index = payloads.length; index < previousIds.length; ...)`, no
catch). -/
def upsertServiceTitanAppointments (env : Env) (G : Globals) (userConfig : UserConfig)
    (event : NormalizedEvent) (existingMapping : Option Mapping) : M (List Nat) := do
  let payloads := mapEventToServiceTitanPayloads G event userConfig
  let previousIds := match existingMapping with
    | some m => m.st_nonjob_ids
    | none => []
  let currentIds ← upsertLoop env previousIds payloads 0 []
  deleteIdsLoop env (previousIds.drop payloads.length)
  pure currentIds

/-- The best-effort rollback loop of `processNormalizedEvent`
(src/services/sync.js 151–160): each delete failure is only warned about. -/
def rollbackLoop (env : Env) : List Nat → M Unit
  | [] => pure ()
  | appointmentId :: rest => do
    M.tryCatchM (stDeleteNonJob env appointmentId) (fun _ => pure ())
    rollbackLoop env rest

def bumpSkipped : M Unit :=
  M.modifyW fun w => { w with summary.eventsSkipped := w.summary.eventsSkipped + 1 }

def bumpUpserted : M Unit :=
  M.modifyW fun w => { w with summary.eventsUpserted := w.summary.eventsUpserted + 1 }

def pushError (e : ErrRec) : M Unit :=
  M.modifyW fun w => { w with summary.errors := w.summary.errors ++ [e] }

/-- `processNormalizedEvent` of src/services/sync.js 92–165: the per-event
state machine (tombstone / incomplete / availability-filtered /
fingerprint-unchanged / upsert). -/
def processNormalizedEvent (env : Env) (G : Globals) (userConfig : UserConfig)
    (normalizedEvent : NormalizedEvent) : M Unit := do
  let stableKey := getStableEventKey G normalizedEvent
  let existingMapping ← findEventMapping env userConfig.outlook_upn stableKey
  let dedupeKey := getEventDedupeKey G normalizedEvent
  if normalizedEvent.isRemoved then do
    let mappingByGid ← findEventMappingByGraphId env userConfig.outlook_upn normalizedEvent.id
    match mappingByGid with
    | some m => do
      deleteMappedEvent env userConfig.outlook_upn m.outlook_event_id m
      bumpSkipped
    | none => bumpSkipped
  else if normalizedEvent.start = none ∨ normalizedEvent.stop = none then
    bumpSkipped
  else if isAvailabilityEvent normalizedEvent.showAs then do
    (match existingMapping with
     | some m => deleteMappedEvent env userConfig.outlook_upn stableKey m
     | none => pure ())
    bumpSkipped
  else if ¬ isSyncableBusyOrOof normalizedEvent.showAs then do
    (match existingMapping with
     | some m => deleteMappedEvent env userConfig.outlook_upn stableKey m
     | none => pure ())
    bumpSkipped
  else if (match existingMapping with
           | some m => decide (m.last_hash = dedupeKey)
           | none => false) then
    bumpSkipped
  else do
    let appointmentIds ← upsertServiceTitanAppointments env G userConfig normalizedEvent existingMapping
    M.tryCatchM
      (updateEventMapping env userConfig.outlook_upn stableKey appointmentIds dedupeKey
        (statusWithGid normalizedEvent.id)
        (match existingMapping with
         | some m => some m.rowIndex
         | none => none))
      (fun e => do
        (match existingMapping with
         | none => rollbackLoop env appointmentIds
         | some _ => pure ())
        M.throwM e)
    bumpUpserted

/-- The per-event loop of `processUserEvents` (src/services/sync.js
171–188), carrying the `seen` dedupe-key set; a per-event error is caught
and recorded, and processing continues. -/
def processEventsLoop (env : Env) (G : Globals) (userConfig : UserConfig) :
    List NormalizedEvent → List String → M Unit
  | [], _ => pure ()
  | event :: rest, seen => do
    let dedupeKey := getEventDedupeKey G event
    if seen.contains dedupeKey then do
      bumpSkipped
      processEventsLoop env G userConfig rest seen
    else do
      M.tryCatchM (processNormalizedEvent env G userConfig event)
        (fun e => pushError
          { userUpn := userConfig.outlook_upn, eventId := some event.id, message := e })
      processEventsLoop env G userConfig rest (seen ++ [dedupeKey])

/-- `processUserEvents` of src/services/sync.js 167–189. -/
def processUserEvents (env : Env) (G : Globals) (userConfig : UserConfig)
    (rawEvents : List RawEvent) : M Unit :=
  let normalizedEvents := (rawEvents.map (normalizeGraphEvent G)).filter fun e => e.id ≠ ""
  processEventsLoop env G userConfig normalizedEvents []

/-- `runDeltaSyncForUser` of src/services/sync.js 191–222: resolve the user
configuration, read the cursor, fetch the delta batch, process every event,
then persist the new continuation cursor. -/
def runDeltaSyncForUser (env : Env) (G : Globals) (userUpn : String)
    (userConfigOverride : Option UserConfig) : M Summary := do
  M.modifyW fun w => { w with summary := createSummary }
  let userConfig ← (match userConfigOverride with
    | some c => pure (some c)
    | none => do
      let techMap ← getTechMap env
      pure (techMap.find? fun user => user.outlook_upn = userUpn ∧ user.enabled))
  match userConfig with
  | none => do
    let w ← M.getW
    pure w.summary
  | some cfg => do
    let deltaState ← getDeltaState env userUpn
    let fetched ← getDeltaEvents env userUpn deltaState.delta_link
    M.modifyW fun w =>
      { w with summary :=
          { w.summary with calendarsProcessed := 1, eventsFetched := fetched.1.length } }
    processUserEvents env G cfg fetched.1
    updateDeltaState env userUpn fetched.2 deltaState.rowIndex
    let w ← M.getW
    pure w.summary

/-!
## Auxiliary definitions for the statements and witnesses
-/

/-- Is this call the cursor persistence (`updateDeltaState`)? -/
def Call.isDeltaWrite : Call → Bool
  | Call.deltaWrite _ _ _ => true
  | _ => false

/-- Is this call a downstream ServiceTitan create/update/delete? -/
def Call.isDownstream : Call → Bool
  | Call.stCreate _ => true
  | Call.stUpdate _ _ => true
  | Call.stDelete _ => true
  | _ => false

/-- Is this call a mapping-store write (`updateEventMapping` /
`updateDeltaState`)? -/
def Call.isStoreWrite : Call → Bool
  | Call.emWrite _ _ _ _ _ _ => true
  | Call.deltaWrite _ _ _ => true
  | _ => false

/-- Is this call a mapping-table read (`findEventMapping`)? -/
def Call.isMappingRead : Call → Bool
  | Call.emFind _ _ => true
  | _ => false

/-- Default payload (used only as the `getD` default in statements). -/
def dfltPayload : STPayload :=
  { technicianId := "", start := "", duration := "", name := "", allDay := false
    showOnTechnicianSchedule := true, clearDispatchBoard := true
    clearTechnicianView := false, removeTechnicianFromCapacityPlanning := true
    active := true }

/-- Decimal digits to a number (kernel-reducible stand-in parser). -/
def decToNat : List Char → Nat → Option Nat
  | [], acc => some acc
  | c :: rest, acc =>
    if '0' ≤ c ∧ c ≤ '9' then decToNat rest (acc * 10 + (c.toNat - 48)) else none

/-- Concrete stand-in for luxon ISO parsing in witness scenarios: timestamp
strings are decimal instants. -/
def parseInstant (s : String) : Option Int :=
  match s.data with
  | [] => none
  | cs => (decToNat cs 0).map Int.ofNat

/-- Concrete `Globals` used by witnesses: the UTC−6 zone, decimal instant
rendering/parsing, and an empty `process.env`. -/
def testGlobals : Globals :=
  { zone := utc6
    isoUtc := fun t => toString t
    isoZoned := fun t => toString t
    fromIsoZoned := fun _ s => parseInstant s
    fromIso := fun s => parseInstant s
    envVar := fun _ => none }

/-- The `i`-th block of the closed form of the Day-Splitter on a multi-day
interval (see `splitMultiDayEvent_closed`). -/
def closedBlock (z : Zone) (s e : Int) (i : Nat) : Block :=
  { start := if i = 0 then s else z.dayStart (z.dayOf s + i)
    stop := if i = (z.dayOf e - z.dayOf s).toNat then e
            else z.dayStart (z.dayOf s + i + 1) - 1 }

/-!
## Concrete fixtures for witnesses and counterexamples
-/

def testCfg : UserConfig :=
  { outlook_upn := "tech@example.com", st_technician_id := "7"
    st_timesheet_code_id := "9", enabled := true }

/-- A concrete busy single-day event (local day 0, 14:00–15:00 in `utc6`). -/
def baseEvt : NormalizedEvent :=
  { id := "evt-1", iCalUId := "uid-1", subject := "Maintenance"
    start := some 72000000, stop := some 75600000, isAllDay := false
    showAs := "busy", isPrivate := false, location := "", attendees := []
    bodyPreview := "", lastModifiedDateTime := some 1000, isRemoved := false }

def emptyStore : Store := { techMap := [], deltaRows := [], eventMap := [] }

def mkWorld (st : Store) : World :=
  { store := st, summary := createSummary, trace := [] }

/-- The all-success oracle: every call succeeds, creates return `100 + n`. -/
def okEnv : Env :=
  { outcome := fun _ => Outcome.ok, newId := fun n => 100 + n
    fetch := Except.ok ([], "link-1") }

/-- A concrete sync-like appointment for the cleanup scenario. -/
def apptA : Appt :=
  { id := "1", technicianId := "7", start := "72000000", duration := "01:00:00"
    name := "Busy", allDay := false, showOnTechnicianSchedule := true
    clearDispatchBoard := true, clearTechnicianView := false
    removeTechnicianFromCapacityPlanning := true, active := true }

/-- A signature group of three identical appointments with ids 2, 1, 3. -/
def grpEntries : List (String × Appt) := [("2", apptA), ("1", apptA), ("3", apptA)]

/-- Raw Graph form of `baseEvt` (timestamps are decimal instants under
`testGlobals`). -/
def rawBusy : RawEvent :=
  { id := some "evt-1", iCalUId := some "uid-1", subject := some "Maintenance"
    start := some { dateTime := some "72000000", timeZone := some "UTC" }
    stop := some { dateTime := some "75600000", timeZone := none }
    isAllDay := false, showAs := some "busy", sensitivity := none
    locationDisplayName := none, attendees := [], bodyPreview := none
    lastModifiedDateTime := some "1000", removedMarker := false }

/-- A mapping row whose stored fingerprint matches `rawBusy` under
`testGlobals`. -/
def unchangedRow : MappingRow :=
  { outlook_upn := "tech@example.com"
    outlook_event_id := "uid-1:72000000:75600000"
    st_nonjob_ids := [101]
    last_hash := "v3:evt-1:uid-1:1000:N:busy:T:72000000:75600000:Maintenance"
    status := "SYNCED|gid=evt-1" }

def ustore : Store := { techMap := [testCfg], deltaRows := [], eventMap := [unchangedRow] }

/-- The downstream calls issued by one positional upsert pass: update in
place where a previous id exists, create beyond the previous count, delete
the surplus previous ids. -/
def upsertCalls (payloads : List STPayload) (prevIds : List Nat) : List Call :=
  ((List.range payloads.length).map (fun j =>
    if j < prevIds.length then
      Call.stUpdate (prevIds.getD j 0) (payloads.getD j dfltPayload)
    else Call.stCreate (payloads.getD j dfltPayload)))
  ++ (prevIds.drop payloads.length).map Call.stDelete

/-- The id list produced by one positional upsert pass starting at trace
position `base`: previous ids are reused in place, fresh ids fill the
positions beyond the previous count. -/
def upsertIds (env : Env) (base : Nat) (payloads : List STPayload) (prevIds : List Nat) : List Nat :=
  (List.range payloads.length).map fun j =>
    if j < prevIds.length then prevIds.getD j 0 else env.newId (base + j)

/-- A stale mapping holding three appointment ids for the (single-block)
`baseEvt`: the shrink scenario of the spec. -/
def row3 : MappingRow :=
  { outlook_upn := "tech@example.com"
    outlook_event_id := "uid-1:72000000:75600000"
    st_nonjob_ids := [11, 12, 13]
    last_hash := "stale"
    status := "SYNCED|gid=evt-1" }

def store3 : Store := { techMap := [testCfg], deltaRows := [], eventMap := [row3] }

def Call.isCreate : Call → Bool
  | Call.stCreate _ => true
  | _ => false

def Call.isDelete : Call → Bool
  | Call.stDelete _ => true
  | _ => false

/-- `baseEvt` stretched to end on the next local day: two day blocks. -/
def evt2 : NormalizedEvent :=
  { baseEvt with stop := some 172800000 }

/-- A stale mapping for `evt2` holding one appointment id. -/
def row4 : MappingRow :=
  { outlook_upn := "tech@example.com"
    outlook_event_id := "uid-1:72000000:172800000"
    st_nonjob_ids := [11]
    last_hash := "stale"
    status := "SYNCED|gid=evt-1" }

def store4 : Store := { techMap := [testCfg], deltaRows := [], eventMap := [row4] }

/-- The oracle that fails exactly the fourth call (the mapping write of the
`evt2`/`row4` scenario: find, update, create, write). -/
def failWriteEnv : Env :=
  { outcome := fun n => if n = 3 then Outcome.fail else Outcome.ok
    newId := fun n => 100 + n
    fetch := Except.ok ([], "link-1") }

/-- The run of the `evt2`/`row4` scenario against `failWriteEnv`. -/
def cx4 : Except String Unit × World :=
  processNormalizedEvent failWriteEnv testGlobals testCfg evt2 (mkWorld store4)

/-- The oracle that fails exactly the third call (the mapping write of the
no-previous-mapping single-block scenario: find, create, write). -/
def failWrite2Env : Env :=
  { outcome := fun n => if n = 2 then Outcome.fail else Outcome.ok
    newId := fun n => 100 + n
    fetch := Except.ok ([], "link-1") }

instance exceptDecEq {e a : Type} [DecidableEq e] [DecidableEq a] :
    DecidableEq (Except e a)
  | Except.ok x, Except.ok y =>
    if h : x = y then isTrue (by rw [h]) else isFalse (fun hc => by cases hc; exact h rfl)
  | Except.ok _, Except.error _ => isFalse (fun hc => by cases hc)
  | Except.error _, Except.ok _ => isFalse (fun hc => by cases hc)
  | Except.error x, Except.error y =>
    if h : x = y then isTrue (by rw [h]) else isFalse (fun hc => by cases hc; exact h rfl)

/-- The tombstoned (removed) form of `baseEvt`. -/
def tombEvt : NormalizedEvent :=
  { baseEvt with isRemoved := true }

/-- A mapping row carrying the Graph-id marker of `tombEvt` and two
downstream appointment ids. -/
def rowT : MappingRow :=
  { outlook_upn := "tech@example.com"
    outlook_event_id := "uid-1:72000000:75600000"
    st_nonjob_ids := [21, 22]
    last_hash := "v3:whatever"
    status := "SYNCED|gid=evt-1" }

def storeT : Store := { techMap := [testCfg], deltaRows := [], eventMap := [rowT] }

/-- The run of the tombstone scenario against the oracle whose third call
(the first appointment delete) fails. -/
def cx5 : Except String Unit × World :=
  processNormalizedEvent failWrite2Env testGlobals testCfg tombEvt (mkWorld storeT)

def exOk {e a : Type} : Except e a → Bool
  | Except.ok _ => true
  | Except.error _ => false

/-- Frame property of an engine step: it only appends non-cursor calls to
the trace, and leaves the cursor rows and the run summary untouched. -/
def Frame {a : Type} (m : M a) : Prop :=
  ∀ w : World, ∃ t : List Call,
    (m w).2.trace = w.trace ++ t
    ∧ (∀ c ∈ t, c.isDeltaWrite = false)
    ∧ (m w).2.store.deltaRows = w.store.deltaRows
    ∧ (m w).2.summary = w.summary

/-- Accounting property of one per-event pass: same frame as `Frame` on
trace and cursor rows; the error list, fetch and calendar counters are
untouched; on success the skipped+upserted total grows by exactly one, and
on a thrown error the summary is untouched. -/
def Bumps1 {a : Type} (m : M a) : Prop :=
  ∀ w : World, ∃ t : List Call,
    (m w).2.trace = w.trace ++ t
    ∧ (∀ c ∈ t, c.isDeltaWrite = false)
    ∧ (m w).2.store.deltaRows = w.store.deltaRows
    ∧ (m w).2.summary.errors = w.summary.errors
    ∧ (m w).2.summary.eventsFetched = w.summary.eventsFetched
    ∧ (m w).2.summary.calendarsProcessed = w.summary.calendarsProcessed
    ∧ (exOk (m w).1 = true →
        (m w).2.summary.eventsSkipped + (m w).2.summary.eventsUpserted
          = w.summary.eventsSkipped + w.summary.eventsUpserted + 1)
    ∧ (exOk (m w).1 = false → (m w).2.summary = w.summary)

/-- The total of outcomes accounted per event in a summary. -/
def summaryAccounted (s : Summary) : Nat :=
  s.eventsSkipped + s.eventsUpserted + s.errors.length

/-- `rawBusy` without a Graph id: normalizes to an empty id and is dropped
by the batch filter. -/
def rawNoId : RawEvent :=
  { rawBusy with id := none }

/-- The all-success oracle whose delta fetch returns `rawBusy` (fingerprint
unchanged against `unchangedRow`) plus an id-less raw event. -/
def fetchEnv : Env :=
  { outcome := fun _ => Outcome.ok, newId := fun n => 100 + n
    fetch := Except.ok ([rawBusy, rawNoId], "link-2") }

/-- Weak frame of an engine step: appends only non-cursor calls and leaves
the cursor rows alone (the summary may change). -/
def CursorFrame {a : Type} (m : M a) : Prop :=
  ∀ w : World, ∃ t : List Call,
    (m w).2.trace = w.trace ++ t
    ∧ (∀ c ∈ t, c.isDeltaWrite = false)
    ∧ (m w).2.store.deltaRows = w.store.deltaRows

/-- Temporal cursor property of a run tail: in the appended trace, a cursor
write can only be the very last call, and if no cursor write appears the
cursor rows are untouched. -/
def CursorLast {a : Type} (m : M a) : Prop :=
  ∀ w : World, ∃ t : List Call,
    (m w).2.trace = w.trace ++ t
    ∧ (∀ pre c post, t = pre ++ c :: post → c.isDeltaWrite = true → post = [])
    ∧ ((∀ c ∈ t, c.isDeltaWrite = false) →
        (m w).2.store.deltaRows = w.store.deltaRows)

/-- The summary expected from a `fetchEnv` run over `ustore`: two fetched,
one skipped (unchanged fingerprint), one dropped for lacking an id. -/
def sWit : Summary :=
  { calendarsProcessed := 1, eventsFetched := 2, eventsUpserted := 0
    eventsSkipped := 1, errors := [] }

/-!
## Theorems

First the run-equations of the effect monad, then the Day-Splitter theory,
then the engine theorems. Claim theorems are marked `C1` … `C10`.
-/

@[simp] theorem M.pure_apply {α : Type} (a : α) (w : World) :
    (pure a : M α) w = (Except.ok a, w) := rfl

@[simp] theorem M.bind_apply {α β : Type} (x : M α) (f : α → M β) (w : World) :
    (x >>= f) w =
      match x w with
      | (Except.ok a, w₁) => f a w₁
      | (Except.error e, w₁) => (Except.error e, w₁) := rfl

@[simp] theorem M.throwM_apply {α : Type} (msg : String) (w : World) :
    (M.throwM msg : M α) w = (Except.error msg, w) := rfl

@[simp] theorem M.tryCatchM_apply {α : Type} (body : M α) (handler : String → M α) (w : World) :
    M.tryCatchM body handler w =
      match body w with
      | (Except.ok a, w₁) => (Except.ok a, w₁)
      | (Except.error e, w₁) => handler e w₁ := rfl

@[simp] theorem M.getW_apply (w : World) : M.getW w = (Except.ok w, w) := rfl

@[simp] theorem M.modifyW_apply (f : World → World) (w : World) :
    M.modifyW f w = (Except.ok (), f w) := rfl

@[simp] theorem extCall_apply (env : Env) (c : Call) (w : World) :
    extCall env c w =
      (Except.ok (env.outcome w.trace.length, w.trace.length),
       { w with trace := w.trace ++ [c] }) := rfl

/-! ### Zone facts -/

theorem Zone.dayStart_mono (z : Zone) {d e : Int} (h : d ≤ e) :
    z.dayStart d ≤ z.dayStart e := by
  rcases lt_or_eq_of_le h with h' | h'
  · exact le_of_lt (z.dayStart_lt_dayStart h')
  · rw [h']

theorem Zone.dayOf_mono (z : Zone) {a b : Int} (h : a ≤ b) :
    z.dayOf a ≤ z.dayOf b := by
  by_contra hcon
  push_neg at hcon
  have h1 : z.dayOf b + 1 ≤ z.dayOf a := by omega
  have h2 : z.dayStart (z.dayOf b + 1) ≤ z.dayStart (z.dayOf a) := z.dayStart_mono h1
  have h3 := z.dayStart_le_self a
  have h4 := z.lt_dayStart_succ b
  omega

theorem Zone.lt_of_dayOf_lt (z : Zone) {a b : Int} (h : z.dayOf a < z.dayOf b) : a < b := by
  by_contra hcon
  push_neg at hcon
  exact absurd (z.dayOf_mono hcon) (by omega)

theorem Zone.dayOf_eq_of_mem (z : Zone) {d t : Int}
    (h1 : z.dayStart d ≤ t) (h2 : t < z.dayStart (d + 1)) : z.dayOf t = d := by
  have ha := z.dayStart_le_self t
  have hb := z.lt_dayStart_succ t
  by_contra hcon
  rcases lt_or_gt_of_ne hcon with h' | h'
  · have : z.dayOf t + 1 ≤ d := by omega
    have := z.dayStart_mono this
    omega
  · have : d + 1 ≤ z.dayOf t := by omega
    have := z.dayStart_mono this
    omega

theorem Zone.dayOf_pred_dayStart (z : Zone) (d : Int) :
    z.dayOf (z.dayStart (d + 1) - 1) = d := by
  apply z.dayOf_eq_of_mem
  · have := z.dayStart_lt_dayStart (show d < d + 1 by omega)
    omega
  · omega

/-! ### Day-Splitter theory -/

theorem splitGo_stop (z : Zone) (s e : Int) (fuel : Nat) (cursor : Int)
    (h : ¬ cursor < e) : splitGo z s e fuel cursor = [] := by
  cases fuel with
  | zero => rfl
  | succ n => simp [splitGo, h]

theorem splitGo_from_dayStart (z : Zone) (s e : Int)
    (hs : z.dayOf s < z.dayOf e) (hmid : z.dayStart (z.dayOf e) < e) :
    ∀ (k : Nat) (d : Int) (fuel : Nat), z.dayOf s < d → d ≤ z.dayOf e →
      (z.dayOf e - d).toNat = k → k < fuel →
      splitGo z s e fuel (z.dayStart d) =
        (List.range (k + 1)).map (fun i =>
          if i = k then { start := z.dayStart (z.dayOf e), stop := e }
          else { start := z.dayStart (d + i), stop := z.dayStart (d + i + 1) - 1 }) := by
  intro k
  induction k with
  | zero =>
    intro d fuel hd hde hk hfuel
    have hdE : d = z.dayOf e := by omega
    subst hdE
    obtain ⟨f, rfl⟩ : ∃ f, fuel = f + 1 := ⟨fuel - 1, by omega⟩
    have hlt : z.dayStart (z.dayOf e) < e := hmid
    simp only [splitGo, if_pos hlt, Zone.hasSameDay, beq_iff_eq, Zone.startOfDay,
      Zone.endOfDay, z.dayOf_dayStart]
    rw [if_neg (by omega : ¬ z.dayOf e = z.dayOf s)]
    simp only [if_true]
    rw [show z.dayStart (z.dayOf e + 1) - 1 + 1 = z.dayStart (z.dayOf e + 1) by ring,
      z.dayOf_dayStart]
    rw [splitGo_stop z s e f _ (by
      have h1 := z.lt_dayStart_succ e
      omega)]
    rw [show List.range 1 = [0] from rfl]
    simp
  | succ k ih =>
    intro d fuel hd hde hk hfuel
    have hdlt : d < z.dayOf e := by omega
    obtain ⟨f, rfl⟩ : ∃ f, fuel = f + 1 := ⟨fuel - 1, by omega⟩
    have hlt : z.dayStart d < e := lt_trans (z.dayStart_lt_dayStart hdlt) hmid
    simp only [splitGo, if_pos hlt, Zone.hasSameDay, beq_iff_eq, Zone.startOfDay,
      Zone.endOfDay, z.dayOf_dayStart]
    rw [if_neg (by omega : ¬ d = z.dayOf s), if_neg (by omega : ¬ d = z.dayOf e)]
    rw [show z.dayStart (d + 1) - 1 + 1 = z.dayStart (d + 1) by ring, z.dayOf_dayStart]
    rw [ih (d + 1) f (by omega) (by omega) (by omega) (by omega)]
    conv_rhs => rw [List.range_succ_eq_map, List.map_cons, List.map_map]
    congr 1
    · rw [if_neg (by omega : ¬ (0 : Nat) = k + 1)]
      norm_num
    · apply List.map_congr_left
      intro i hi
      simp only [List.mem_range] at hi
      simp only [Function.comp_apply, Nat.succ_eq_add_one]
      by_cases hik : i = k
      · rw [if_pos hik, if_pos (by omega : i + 1 = k + 1)]
      · rw [if_neg hik, if_neg (by omega : ¬ i + 1 = k + 1)]
        have harith : d + 1 + (↑i : Int) = d + ↑(i + 1) := by push_cast; ring
        rw [harith]

theorem splitMultiDayEvent_same_day (z : Zone) (s e : Int) (h : z.dayOf s = z.dayOf e) :
    splitMultiDayEvent z s e = [{ start := s, stop := e }] := by
  simp [splitMultiDayEvent, Zone.hasSameDay, h]

theorem splitGo_first_step (z : Zone) (s e : Int) (fuel : Nat)
    (hse : s < e) (hlt : ¬ e < z.endOfDay s) :
    splitGo z s e (fuel + 1) s =
      { start := s, stop := z.endOfDay s } ::
        splitGo z s e fuel (z.startOfDay (z.endOfDay s + 1)) := by
  simp only [splitGo, if_pos hse, Zone.hasSameDay, beq_self_eq_true, if_true,
    if_neg hlt]

theorem splitMultiDayEvent_closed (z : Zone) (s e : Int)
    (hs : z.dayOf s < z.dayOf e) (hmid : z.dayStart (z.dayOf e) < e) :
    splitMultiDayEvent z s e =
      (List.range ((z.dayOf e - z.dayOf s).toNat + 1)).map (fun i =>
        { start := if i = 0 then s else z.dayStart (z.dayOf s + i)
          stop := if i = (z.dayOf e - z.dayOf s).toNat then e
                  else z.dayStart (z.dayOf s + i + 1) - 1 }) := by
  have hK : 1 ≤ (z.dayOf e - z.dayOf s).toNat := by omega
  have hse : s < e := z.lt_of_dayOf_lt hs
  unfold splitMultiDayEvent
  rw [if_neg (by simp [Zone.hasSameDay, beq_iff_eq]; omega)]
  obtain ⟨K, hKeq⟩ : ∃ K, (z.dayOf e - z.dayOf s).toNat = K + 1 :=
    ⟨(z.dayOf e - z.dayOf s).toNat - 1, by omega⟩
  rw [hKeq]
  have hEndLt : z.dayStart (z.dayOf s + 1) - 1 < e := by
    have h1 : z.dayOf s + 1 ≤ z.dayOf e := by omega
    have h2 := z.dayStart_mono h1
    omega
  rw [splitGo_first_step z s e (K + 1) hse
    (by simp only [Zone.endOfDay]; omega)]
  simp only [Zone.endOfDay, Zone.startOfDay]
  rw [show z.dayStart (z.dayOf s + 1) - 1 + 1 = z.dayStart (z.dayOf s + 1) by ring,
    z.dayOf_dayStart]
  rw [splitGo_from_dayStart z s e hs hmid K (z.dayOf s + 1) (K + 1)
    (by omega) (by omega) (by omega) (by omega)]
  conv_rhs => rw [List.range_succ_eq_map, List.map_cons, List.map_map]
  congr 1
  · rw [if_pos rfl, if_neg (by omega : ¬ (0 : Nat) = K + 1)]
    norm_num
  · apply List.map_congr_left
    intro i hi
    simp only [List.mem_range] at hi
    simp only [Function.comp_apply, Nat.succ_eq_add_one]
    by_cases hik : i = K
    · rw [if_pos hik, if_neg (by omega : ¬ i + 1 = 0), if_pos (by omega : i + 1 = K + 1)]
      have harith : z.dayOf s + (↑(i + 1) : Int) = z.dayOf e := by
        subst hik; push_cast; omega
      rw [harith]
    · rw [if_neg hik, if_neg (by omega : ¬ i + 1 = 0), if_neg (by omega : ¬ i + 1 = K + 1)]
      have harith : z.dayOf s + 1 + (↑i : Int) = z.dayOf s + ↑(i + 1) := by push_cast; ring
      rw [harith]

theorem splitMultiDayEvent_closedBlock (z : Zone) (s e : Int)
    (hs : z.dayOf s < z.dayOf e) (hmid : z.dayStart (z.dayOf e) < e) :
    splitMultiDayEvent z s e =
      (List.range ((z.dayOf e - z.dayOf s).toNat + 1)).map (closedBlock z s e) :=
  splitMultiDayEvent_closed z s e hs hmid

theorem closedBlock_facts (z : Zone) (s e : Int)
    (hs : z.dayOf s < z.dayOf e) (hmid : z.dayStart (z.dayOf e) < e)
    (i : Nat) (hi : i < (z.dayOf e - z.dayOf s).toNat + 1) :
    s ≤ (closedBlock z s e i).start
    ∧ (closedBlock z s e i).stop ≤ e
    ∧ (closedBlock z s e i).start ≤ (closedBlock z s e i).stop
    ∧ z.dayOf (closedBlock z s e i).start = z.dayOf s + i
    ∧ z.dayOf (closedBlock z s e i).stop = z.dayOf s + i := by
  have h1s := z.lt_dayStart_succ s
  by_cases h0 : i = 0
  · subst h0
    have hne : ¬ (0 : Nat) = (z.dayOf e - z.dayOf s).toNat := by omega
    simp only [closedBlock, if_pos rfl, if_true, if_neg hne, Nat.cast_zero, add_zero]
    have h2 := z.dayOf_pred_dayStart (z.dayOf s)
    have h3 := z.dayStart_mono (show z.dayOf s + 1 ≤ z.dayOf e by omega)
    refine ⟨?_, ?_, ?_, ?_, ?_⟩ <;> first | rfl | trivial | assumption | omega
  · by_cases hlast : i = (z.dayOf e - z.dayOf s).toNat
    · have hie : z.dayOf s + (i : Int) = z.dayOf e := by rw [hlast]; omega
      simp only [closedBlock, if_neg h0, if_pos hlast, hie]
      have hDe := z.dayOf_dayStart (z.dayOf e)
      have hsle : s ≤ z.dayStart (z.dayOf e) := by
        have := z.dayStart_mono (show z.dayOf s + 1 ≤ z.dayOf e by omega)
        omega
      refine ⟨?_, ?_, ?_, ?_, ?_⟩ <;> first | rfl | trivial | assumption | omega
    · simp only [closedBlock, if_neg h0, if_neg hlast]
      have hstart := z.dayOf_dayStart (z.dayOf s + (i : Int))
      have hstop := z.dayOf_pred_dayStart (z.dayOf s + (i : Int))
      have hmono := z.dayStart_lt_dayStart
        (show z.dayOf s + (i : Int) < z.dayOf s + (i : Int) + 1 by omega)
      have hsle : s ≤ z.dayStart (z.dayOf s + (i : Int)) := by
        have := z.dayStart_mono (show z.dayOf s + 1 ≤ z.dayOf s + (i : Int) by omega)
        omega
      have hup : z.dayStart (z.dayOf s + (i : Int) + 1) ≤ z.dayStart (z.dayOf e) :=
        z.dayStart_mono (by omega)
      refine ⟨?_, ?_, ?_, ?_, ?_⟩ <;> first | rfl | trivial | assumption | omega

theorem splitMultiDayEvent_union (z : Zone) (s e : Int)
    (hs : z.dayOf s < z.dayOf e) (hmid : z.dayStart (z.dayOf e) < e) (t : Int) :
    (s ≤ t ∧ t ≤ e) ↔ ∃ b ∈ splitMultiDayEvent z s e, b.start ≤ t ∧ t ≤ b.stop := by
  rw [splitMultiDayEvent_closedBlock z s e hs hmid]
  constructor
  · rintro ⟨hst, hte⟩
    have hd1 : z.dayOf s ≤ z.dayOf t := z.dayOf_mono hst
    have hd2 : z.dayOf t ≤ z.dayOf e := z.dayOf_mono hte
    refine ⟨closedBlock z s e ((z.dayOf t - z.dayOf s).toNat),
      List.mem_map_of_mem _ (List.mem_range.mpr (by omega)), ?_⟩
    have htlt := z.lt_dayStart_succ t
    have htge := z.dayStart_le_self t
    by_cases h0 : (z.dayOf t - z.dayOf s).toNat = 0
    · have hdt : z.dayOf t = z.dayOf s := by omega
      simp only [closedBlock, h0, if_pos rfl, if_true, if_neg (by omega :
        ¬ (0 : Nat) = (z.dayOf e - z.dayOf s).toNat), Nat.cast_zero, add_zero]
      rw [hdt] at htlt
      omega
    · have hcast : z.dayOf s + ((z.dayOf t - z.dayOf s).toNat : Int) = z.dayOf t := by omega
      by_cases hlast : (z.dayOf t - z.dayOf s).toNat = (z.dayOf e - z.dayOf s).toNat
      · unfold closedBlock
        rw [if_neg h0, if_pos hlast, hcast]
        exact ⟨htge, hte⟩
      · unfold closedBlock
        rw [if_neg h0, if_neg hlast, hcast]
        refine ⟨htge, ?_⟩
        show t ≤ z.dayStart (z.dayOf t + 1) - 1
        omega
  · rintro ⟨b, hb, hbt⟩
    obtain ⟨i, hi, rfl⟩ := List.mem_map.mp hb
    have hi' := List.mem_range.mp hi
    have hf := closedBlock_facts z s e hs hmid i hi'
    exact ⟨le_trans hf.1 hbt.1, le_trans hbt.2 hf.2.1⟩

/-- C6 (amended): properties of the Day-Splitter. Same local day (including
`start = end`): one block equal to the input. Strictly multi-day with `end`
not exactly at a local day start: exactly `N = dayOf end − dayOf start + 1`
blocks (one per local calendar day touched), first starting at `start`, last
ending at `end`, millisecond-contiguous, each within one local day, with
union exactly `[start, end]`. -/
theorem splitMultiDayEvent_spec (z : Zone) (s e : Int) :
    (z.dayOf s = z.dayOf e → splitMultiDayEvent z s e = [{ start := s, stop := e }])
    ∧ (z.dayOf s < z.dayOf e → z.dayStart (z.dayOf e) < e →
        (splitMultiDayEvent z s e).length = (z.dayOf e - z.dayOf s).toNat + 1
        ∧ (∃ b, (splitMultiDayEvent z s e).head? = some b ∧ b.start = s)
        ∧ (∃ b, (splitMultiDayEvent z s e).getLast? = some b ∧ b.stop = e)
        ∧ List.Chain' (fun b c => c.start = b.stop + 1) (splitMultiDayEvent z s e)
        ∧ (∀ b ∈ splitMultiDayEvent z s e, z.dayOf b.start = z.dayOf b.stop ∧ b.start ≤ b.stop)
        ∧ (∀ t : Int, (s ≤ t ∧ t ≤ e) ↔
             ∃ b ∈ splitMultiDayEvent z s e, b.start ≤ t ∧ t ≤ b.stop)) := by
  constructor
  · exact splitMultiDayEvent_same_day z s e
  · intro hs hmid
    have hCF := splitMultiDayEvent_closedBlock z s e hs hmid
    obtain ⟨K, hK⟩ : ∃ K, (z.dayOf e - z.dayOf s).toNat = K + 1 :=
      ⟨(z.dayOf e - z.dayOf s).toNat - 1, by omega⟩
    refine ⟨by rw [hCF]; simp, ?_, ?_, ?_, ?_, ?_⟩
    · refine ⟨closedBlock z s e 0, ?_, by simp [closedBlock]⟩
      rw [hCF, hK, List.range_succ_eq_map, List.map_cons, List.head?_cons]
    · refine ⟨closedBlock z s e (K + 1), ?_, by simp [closedBlock, hK]⟩
      rw [hCF, hK, List.range_succ, List.map_append, List.map_singleton,
        List.getLast?_concat]
    · rw [hCF, List.chain'_iff_get]
      intro i hlen
      simp only [List.length_map, List.length_range] at hlen
      simp only [List.get_eq_getElem, List.getElem_map, List.getElem_range]
      have hi1 : ¬ i + 1 = 0 := by omega
      have hinl : ¬ i = (z.dayOf e - z.dayOf s).toNat := by omega
      simp only [closedBlock, if_neg hi1, if_neg hinl]
      push_cast
      ring_nf
    · intro b hb
      rw [hCF] at hb
      obtain ⟨i, hi, rfl⟩ := List.mem_map.mp hb
      have hi' := List.mem_range.mp hi
      have hf := closedBlock_facts z s e hs hmid i hi'
      exact ⟨by rw [hf.2.2.2.1, hf.2.2.2.2], hf.2.2.1⟩
    · exact splitMultiDayEvent_union z s e hs hmid

/-- C6 counterexample: an event from local day-0 noon to exactly local
midnight of day 1 (instants in `utc6`: 64800000 → 108000000). The interval
touches two local calendar days (`N = 2`), yet the splitter returns a single
block, and its union misses the final instant `end` — so the claimed "exactly
N blocks whose union equals [start, end]" fails when `end` is exactly a local
day start. -/
theorem splitMultiDayEvent_midnight_counterexample :
    splitMultiDayEvent utc6 64800000 108000000 = [{ start := 64800000, stop := 107999999 }]
    ∧ utc6.dayOf 64800000 < utc6.dayOf 108000000
    ∧ (64800000 : Int) < 108000000
    ∧ (utc6.dayOf 108000000 - utc6.dayOf 64800000).toNat + 1 = 2
    ∧ ¬ (∃ b ∈ splitMultiDayEvent utc6 64800000 108000000,
          b.start ≤ 108000000 ∧ 108000000 ≤ b.stop) := by
  decide

theorem splitMultiDayEvent_spec_witness :
    utc6.dayOf 72000000 < utc6.dayOf 230400000
    ∧ utc6.dayStart (utc6.dayOf 230400000) < 230400000
    ∧ (splitMultiDayEvent utc6 72000000 230400000).length = 3 := by
  refine ⟨by decide, by decide, ?_⟩
  have h := (splitMultiDayEvent_spec utc6 72000000 230400000).2 (by decide) (by decide)
  rw [h.1]
  decide

/-- C7: every payload of a private event is named with the masked value
`"Busy"`, whatever the subject. -/
theorem private_event_payload_names (G : Globals) (event : NormalizedEvent)
    (userConfig : UserConfig) (hp : event.isPrivate = true) :
    ∀ p ∈ mapEventToServiceTitanPayloads G event userConfig, p.name = "Busy" := by
  intro p hmem
  simp only [mapEventToServiceTitanPayloads, hp, if_true] at hmem
  obtain ⟨b, _, rfl⟩ := List.mem_map.mp hmem
  rfl

theorem private_event_payload_names_witness :
    (mapEventToServiceTitanPayloads testGlobals
        { baseEvt with subject := "Confidential: dentist", isPrivate := true } testCfg).all
      (fun p => p.name = "Busy") = true := by
  rw [List.all_eq_true]
  intro p hp
  simpa using private_event_payload_names testGlobals
    { baseEvt with subject := "Confidential: dentist", isPrivate := true } testCfg rfl p hp

/-- C8 counterexample: a non-private event with an empty subject and
availability tag `oof` produces payload name `"Calendar Event"` — not the
claimed `"Out of Office"`. -/
theorem nonprivate_empty_subject_counterexample :
    (mapEventToServiceTitanPayloads testGlobals
        { baseEvt with subject := "", showAs := "oof" } testCfg).map STPayload.name
      = ["Calendar Event"]
    ∧ "Calendar Event" ≠ "Out of Office" ∧ "Calendar Event" ≠ "Busy" := by
  decide

/-- C8 (amended): for a non-private event the payload name is the original
subject when non-empty, and the fixed fallback label `"Calendar Event"` (not
an availability-dependent label) when the subject is empty. -/
theorem nonprivate_payload_names (G : Globals) (event : NormalizedEvent)
    (userConfig : UserConfig) (hp : event.isPrivate = false) :
    (event.subject = "" →
      ∀ p ∈ mapEventToServiceTitanPayloads G event userConfig, p.name = "Calendar Event")
    ∧ (event.subject ≠ "" →
      ∀ p ∈ mapEventToServiceTitanPayloads G event userConfig, p.name = event.subject) := by
  constructor
  · intro hsubj p hmem
    simp only [mapEventToServiceTitanPayloads, hp, Bool.false_eq_true, if_false,
      hsubj, if_pos rfl, if_true] at hmem
    obtain ⟨b, _, rfl⟩ := List.mem_map.mp hmem
    rfl
  · intro hsubj p hmem
    simp only [mapEventToServiceTitanPayloads, hp, Bool.false_eq_true, if_false,
      if_neg hsubj] at hmem
    obtain ⟨b, _, rfl⟩ := List.mem_map.mp hmem
    rfl

theorem nonprivate_payload_names_witness :
    (mapEventToServiceTitanPayloads testGlobals
        { baseEvt with subject := "", showAs := "oof" } testCfg).all
      (fun p => p.name = "Calendar Event") = true := by
  rw [List.all_eq_true]
  intro p hp
  simpa using (nonprivate_payload_names testGlobals
    { baseEvt with subject := "", showAs := "oof" } testCfg rfl).1 rfl p hp

/-! ### Cleanup: duplicate-group theory -/

theorem charsLe_refl : ∀ l : List Char, charsLe l l = true := by
  intro l
  induction l with
  | nil => rfl
  | cons a as ih => simp [charsLe, ih]

theorem charsLe_total : ∀ a b : List Char, charsLe a b = true ∨ charsLe b a = true := by
  intro a
  induction a with
  | nil => intro b; left; rfl
  | cons x xs ih =>
    intro b
    cases b with
    | nil => right; rfl
    | cons y ys =>
      by_cases hxy : x.toNat < y.toNat
      · left; simp [charsLe, hxy]
      · by_cases hyx : y.toNat < x.toNat
        · right; simp [charsLe, hyx]
        · rcases ih ys with h | h
          · left; simp [charsLe, hxy, hyx, h]
          · right; simp [charsLe, hxy, hyx, h]

theorem char_toNat_inj {a b : Char} (h : a.toNat = b.toNat) : a = b := by
  cases a; cases b
  simp only [Char.toNat] at h
  congr 1
  exact UInt32.ext h

theorem charsLe_trans : ∀ a b c : List Char,
    charsLe a b = true → charsLe b c = true → charsLe a c = true := by
  intro a
  induction a with
  | nil => intro b c _ _; rfl
  | cons x xs ih =>
    intro b c hab hbc
    cases b with
    | nil => exact absurd hab (by simp [charsLe])
    | cons y ys =>
      cases c with
      | nil => exact absurd hbc (by simp [charsLe])
      | cons z zs =>
        simp only [charsLe] at hab hbc ⊢
        by_cases h1 : x.toNat < y.toNat <;> by_cases h2 : y.toNat < x.toNat <;>
          by_cases h3 : y.toNat < z.toNat <;> by_cases h4 : z.toNat < y.toNat <;>
          by_cases h5 : x.toNat < z.toNat <;> by_cases h6 : z.toNat < x.toNat <;>
          simp [h1, h2, h3, h4, h5, h6] at hab hbc ⊢ <;>
          first | rfl | trivial | (exact ih ys zs hab hbc) | (exfalso; omega)

theorem charsLe_antisymm : ∀ a b : List Char,
    charsLe a b = true → charsLe b a = true → a = b := by
  intro a
  induction a with
  | nil =>
    intro b _ hba
    cases b with
    | nil => rfl
    | cons y ys => exact absurd hba (by simp [charsLe])
  | cons x xs ih =>
    intro b hab hba
    cases b with
    | nil => exact absurd hab (by simp [charsLe])
    | cons y ys =>
      simp only [charsLe] at hab hba
      by_cases h1 : x.toNat < y.toNat <;> by_cases h2 : y.toNat < x.toNat <;>
        simp [h1, h2] at hab hba ⊢
      · exfalso; omega
      · exact ⟨char_toNat_inj (by omega), ih ys hab hba⟩

theorem localeLe_refl (a : String) : localeLe a a = true := charsLe_refl a.data

theorem localeLe_total (a b : String) : localeLe a b = true ∨ localeLe b a = true :=
  charsLe_total a.data b.data

theorem localeLe_trans {a b c : String} (h1 : localeLe a b = true)
    (h2 : localeLe b c = true) : localeLe a c = true :=
  charsLe_trans a.data b.data c.data h1 h2

theorem localeLe_antisymm {a b : String} (h1 : localeLe a b = true)
    (h2 : localeLe b a = true) : a = b := by
  cases a with
  | mk da =>
    cases b with
    | mk db => exact congrArg String.mk (charsLe_antisymm da db h1 h2)

theorem nodup_fst_inj {α β : Type} : ∀ l : List (α × β), (l.map Prod.fst).Nodup →
    ∀ a ∈ l, ∀ b ∈ l, a.1 = b.1 → a = b := by
  intro l
  induction l with
  | nil => intro _ a ha; exact absurd ha (List.not_mem_nil a)
  | cons p ps ih =>
    intro hnd a ha b hb heq
    rw [List.map_cons, List.nodup_cons] at hnd
    rcases List.mem_cons.mp ha with rfl | ha' <;> rcases List.mem_cons.mp hb with rfl | hb'
    · rfl
    · exact absurd (heq ▸ List.mem_map_of_mem Prod.fst hb') hnd.1
    · exact absurd (heq ▸ List.mem_map_of_mem Prod.fst ha') hnd.1
    · exact ih hnd.2 a ha' b hb' heq

theorem planGroup_ref_char (referenced : List String) (entries : List (String × Appt))
    (hlen : 1 < entries.length)
    (hex : ∃ x ∈ entries, referenced.contains x.1 = true) :
    planGroupDeletions referenced entries
      = entries.filter (fun e => !(referenced.contains e.1)) := by
  simp only [planGroupDeletions]
  rw [if_neg (by omega)]
  obtain ⟨x, hx, hxr⟩ := hex
  have hxm : x ∈ entries.filter (fun e => referenced.contains e.1) :=
    List.mem_filter.mpr ⟨hx, hxr⟩
  rw [if_pos (List.length_pos.mpr (List.ne_nil_of_mem hxm))]

theorem planGroup_noref_char (referenced : List String) (entries : List (String × Appt))
    (hnodup : (entries.map Prod.fst).Nodup) (hlen : 1 < entries.length)
    (hno : ∀ x ∈ entries, referenced.contains x.1 = false) :
    ∃ keep, keep ∈ entries ∧ (∀ x ∈ entries, localeLe keep.1 x.1 = true) ∧
      (∀ x, x ∈ planGroupDeletions referenced entries ↔ (x ∈ entries ∧ x ≠ keep)) := by
  have hfe : entries.filter (fun e => referenced.contains e.1) = [] := by
    rw [List.filter_eq_nil_iff]
    intro a ha
    simpa using hno a ha
  have hplan : planGroupDeletions referenced entries
      = (List.insertionSort (fun a b => localeLe a.1 b.1 = true) entries).drop 1 := by
    simp only [planGroupDeletions]
    rw [if_neg (by omega), hfe]
    rw [if_neg (by simp)]
  have hperm := List.perm_insertionSort (fun a b : String × Appt => localeLe a.1 b.1 = true) entries
  haveI : IsTotal (String × Appt) (fun a b => localeLe a.1 b.1 = true) :=
    ⟨fun a b => localeLe_total a.1 b.1⟩
  haveI : IsTrans (String × Appt) (fun a b => localeLe a.1 b.1 = true) :=
    ⟨fun _ _ _ => localeLe_trans⟩
  have hsorted := List.sorted_insertionSort (fun a b : String × Appt => localeLe a.1 b.1 = true) entries
  have hlength := hperm.length_eq
  obtain ⟨keep, rest, hcons⟩ :
      ∃ k rs, List.insertionSort (fun a b : String × Appt => localeLe a.1 b.1 = true) entries
        = k :: rs := by
    cases h : List.insertionSort (fun a b : String × Appt => localeLe a.1 b.1 = true) entries with
    | nil => rw [h] at hlength; simp at hlength; omega
    | cons a l => exact ⟨a, l, rfl⟩
  rw [hcons] at hperm hsorted
  have hmin : ∀ x ∈ entries, localeLe keep.1 x.1 = true := by
    intro x hx
    rcases List.mem_cons.mp (hperm.mem_iff.mpr hx) with heq | hxr
    · rw [heq]; exact localeLe_refl keep.1
    · exact (List.sorted_cons.mp hsorted).1 x hxr
  refine ⟨keep, hperm.mem_iff.mp (List.mem_cons_self keep rest), hmin, ?_⟩
  intro x
  rw [hplan, hcons]
  show x ∈ rest ↔ _
  constructor
  · intro hxr
    have hxe : x ∈ entries := hperm.mem_iff.mp (List.mem_cons_of_mem keep hxr)
    refine ⟨hxe, ?_⟩
    intro heq
    rw [heq] at hxr
    have hnds : ((keep :: rest).map Prod.fst).Nodup :=
      ((hperm.map Prod.fst).nodup_iff).mpr hnodup
    rw [List.map_cons, List.nodup_cons] at hnds
    exact hnds.1 (List.mem_map_of_mem Prod.fst hxr)
  · rintro ⟨hxe, hxk⟩
    rcases List.mem_cons.mp (hperm.mem_iff.mpr hxe) with heq | h
    · exact absurd heq hxk
    · exact h

/-- C9: within a duplicate-signature group of size > 1 with (as listed by the
API) pairwise distinct appointment ids: if any member id is referenced by a
mapping row, exactly the unreferenced members are deleted and every
referenced member is kept; otherwise the member with the lowest-sorting id is
kept and exactly the others are deleted; in both cases the deleted set is
independent of the listing order of the group. -/
theorem dedupe_group_spec (referenced : List String) (entries : List (String × Appt))
    (hnodup : (entries.map Prod.fst).Nodup) (hlen : 1 < entries.length) :
    ((∃ x ∈ entries, referenced.contains x.1 = true) →
      ∀ x ∈ entries,
        (x ∈ planGroupDeletions referenced entries ↔ referenced.contains x.1 = false))
    ∧ ((∀ x ∈ entries, referenced.contains x.1 = false) →
      ∃ keep ∈ entries, (∀ x ∈ entries, localeLe keep.1 x.1 = true)
        ∧ ∀ x ∈ entries, (x ∈ planGroupDeletions referenced entries ↔ x ≠ keep))
    ∧ (∀ entries', entries'.Perm entries →
      ∀ x, x ∈ planGroupDeletions referenced entries' ↔
        x ∈ planGroupDeletions referenced entries) := by
  refine ⟨?_, ?_, ?_⟩
  · intro hex x hx
    rw [planGroup_ref_char referenced entries hlen hex, List.mem_filter]
    constructor
    · rintro ⟨_, h⟩
      simpa using h
    · intro h
      exact ⟨hx, by simpa using h⟩
  · intro hno
    obtain ⟨keep, hk, hmin, hchar⟩ := planGroup_noref_char referenced entries hnodup hlen hno
    refine ⟨keep, hk, hmin, fun x hx => ?_⟩
    rw [hchar x]
    exact ⟨fun h => h.2, fun h => ⟨hx, h⟩⟩
  · intro entries' hp x
    have hnodup' : (entries'.map Prod.fst).Nodup := ((hp.map Prod.fst).nodup_iff).mpr hnodup
    have hlen' : 1 < entries'.length := by rw [hp.length_eq]; exact hlen
    by_cases hex : ∃ y ∈ entries, referenced.contains y.1 = true
    · have hex' : ∃ y ∈ entries', referenced.contains y.1 = true := by
        obtain ⟨y, hy, hyr⟩ := hex
        exact ⟨y, hp.mem_iff.mpr hy, hyr⟩
      rw [planGroup_ref_char referenced entries hlen hex,
          planGroup_ref_char referenced entries' hlen' hex']
      simp only [List.mem_filter]
      constructor
      · rintro ⟨h1, h2⟩
        exact ⟨hp.mem_iff.mp h1, h2⟩
      · rintro ⟨h1, h2⟩
        exact ⟨hp.mem_iff.mpr h1, h2⟩
    · push_neg at hex
      have hno : ∀ y ∈ entries, referenced.contains y.1 = false := by
        intro y hy
        cases hb : referenced.contains y.1 with
        | false => rfl
        | true => exact absurd hb (hex y hy)
      have hno' : ∀ y ∈ entries', referenced.contains y.1 = false :=
        fun y hy => hno y (hp.mem_iff.mp hy)
      obtain ⟨keep, hk, hmin, hchar⟩ := planGroup_noref_char referenced entries hnodup hlen hno
      obtain ⟨keep', hk', hmin', hchar'⟩ :=
        planGroup_noref_char referenced entries' hnodup' hlen' hno'
      have hkk : keep' = keep := by
        have h1 : localeLe keep.1 keep'.1 = true := hmin keep' (hp.mem_iff.mp hk')
        have h2 : localeLe keep'.1 keep.1 = true := hmin' keep (hp.mem_iff.mpr hk)
        exact nodup_fst_inj entries hnodup keep' (hp.mem_iff.mp hk') keep hk
          (localeLe_antisymm h2 h1)
      rw [hchar x, hchar' x, hkk]
      constructor
      · rintro ⟨h1, h2⟩
        exact ⟨hp.mem_iff.mp h1, h2⟩
      · rintro ⟨h1, h2⟩
        exact ⟨hp.mem_iff.mpr h1, h2⟩

theorem dedupe_group_spec_witness :
    (grpEntries.map Prod.fst).Nodup ∧ 1 < grpEntries.length
    ∧ ∀ x ∈ grpEntries,
        (x ∈ planGroupDeletions ["3"] grpEntries ↔ (["3"].contains x.1 = false)) :=
  ⟨by decide, by decide,
   (dedupe_group_spec ["3"] grpEntries (by decide) (by decide)).1 (by decide)⟩

/-! ### Run equations for the engine primitives -/

theorem stCreateNonJob_run (env : Env) (p : STPayload) (w : World) :
    stCreateNonJob env p w =
      ((if env.outcome w.trace.length = Outcome.fail then Except.error errStCreate
        else Except.ok (env.newId w.trace.length)),
       { w with trace := w.trace ++ [Call.stCreate p] }) := by
  unfold stCreateNonJob
  simp only [M.bind_apply, extCall_apply]
  cases env.outcome w.trace.length <;> simp

theorem stUpdateNonJob_run (env : Env) (i : Nat) (p : STPayload) (w : World) :
    stUpdateNonJob env i p w =
      ((if env.outcome w.trace.length = Outcome.ok then Except.ok ()
        else Except.error errStUpdate),
       { w with trace := w.trace ++ [Call.stUpdate i p] }) := by
  unfold stUpdateNonJob
  simp only [M.bind_apply, extCall_apply]
  cases env.outcome w.trace.length <;> simp

theorem stDeleteNonJob_run (env : Env) (i : Nat) (w : World) :
    stDeleteNonJob env i w =
      ((if env.outcome w.trace.length = Outcome.fail then Except.error errStDelete
        else Except.ok ()),
       { w with trace := w.trace ++ [Call.stDelete i] }) := by
  unfold stDeleteNonJob
  simp only [M.bind_apply, extCall_apply]
  cases env.outcome w.trace.length <;> simp

theorem findEventMapping_run (env : Env) (upn key : String) (w : World) :
    findEventMapping env upn key w =
      ((if env.outcome w.trace.length = Outcome.fail then Except.error errSheetRead
        else Except.ok ((findMappingRowIdx w.store.eventMap upn key).map Mapping.ofRow)),
       { w with trace := w.trace ++ [Call.emFind upn key] }) := by
  unfold findEventMapping
  simp only [M.bind_apply, extCall_apply]
  cases env.outcome w.trace.length <;> simp

theorem findEventMappingByGraphId_run (env : Env) (upn gid : String) (w : World) :
    findEventMappingByGraphId env upn gid w =
      ((if env.outcome w.trace.length = Outcome.fail then Except.error errSheetRead
        else Except.ok ((findGidRowIdx w.store.eventMap upn gid).map Mapping.ofRow)),
       { w with trace := w.trace ++ [Call.emFindByGid upn gid] }) := by
  unfold findEventMappingByGraphId
  simp only [M.bind_apply, extCall_apply]
  cases env.outcome w.trace.length <;> simp

theorem updateEventMapping_run (env : Env) (upn key : String) (ids : List Nat)
    (hash status : String) (ri : Option Nat) (w : World) :
    updateEventMapping env upn key ids hash status ri w =
      ((if env.outcome w.trace.length = Outcome.fail then Except.error errSheetWrite
        else Except.ok ()),
       { w with
         store := (if env.outcome w.trace.length = Outcome.fail then w.store
           else { w.store with eventMap :=
             (if jsTruthyIdx ri then
               w.store.eventMap.set (ri.getD 0 - 2)
                 { outlook_upn := upn, outlook_event_id := key, st_nonjob_ids := ids
                   last_hash := hash, status := status }
             else
               w.store.eventMap ++
                 [{ outlook_upn := upn, outlook_event_id := key, st_nonjob_ids := ids
                    last_hash := hash, status := status }]) })
         trace := w.trace ++ [Call.emWrite upn key ids hash status ri] }) := by
  unfold updateEventMapping
  simp only [M.bind_apply, extCall_apply]
  cases env.outcome w.trace.length <;> simp

theorem updateDeltaState_run (env : Env) (upn link : String) (ri : Option Nat) (w : World) :
    updateDeltaState env upn link ri w =
      ((if env.outcome w.trace.length = Outcome.fail then Except.error errSheetWrite
        else Except.ok ()),
       { w with
         store := (if env.outcome w.trace.length = Outcome.fail then w.store
           else { w.store with deltaRows :=
             (if jsTruthyIdx ri then
               w.store.deltaRows.set (ri.getD 0 - 2) { outlook_upn := upn, delta_link := link }
             else
               w.store.deltaRows ++ [{ outlook_upn := upn, delta_link := link }]) })
         trace := w.trace ++ [Call.deltaWrite upn link ri] }) := by
  unfold updateDeltaState
  simp only [M.bind_apply, extCall_apply]
  cases env.outcome w.trace.length <;> simp

theorem getDeltaState_run (env : Env) (upn : String) (w : World) :
    getDeltaState env upn w =
      ((if env.outcome w.trace.length = Outcome.fail then Except.error errSheetRead
        else Except.ok (match findDeltaRowIdx w.store.deltaRows upn with
          | some p => { rowIndex := some p.1, delta_link := some p.2.delta_link }
          | none => { rowIndex := none, delta_link := none })),
       { w with trace := w.trace ++ [Call.deltaRead upn] }) := by
  unfold getDeltaState
  simp only [M.bind_apply, extCall_apply]
  cases env.outcome w.trace.length <;>
    (try simp) <;> (cases findDeltaRowIdx w.store.deltaRows upn <;> simp)

theorem getTechMap_run (env : Env) (w : World) :
    getTechMap env w =
      ((if env.outcome w.trace.length = Outcome.fail then Except.error errSheetRead
        else Except.ok w.store.techMap),
       { w with trace := w.trace ++ [Call.techMapRead] }) := by
  unfold getTechMap
  simp only [M.bind_apply, extCall_apply]
  cases env.outcome w.trace.length <;> simp

theorem getDeltaEvents_run (env : Env) (upn : String) (dl : Option String) (w : World) :
    getDeltaEvents env upn dl w =
      ((match env.fetch with
        | Except.ok r => Except.ok r
        | Except.error e => Except.error e),
       { w with trace := w.trace ++ [Call.graphDelta upn dl] }) := by
  unfold getDeltaEvents
  simp only [M.bind_apply, extCall_apply]
  cases env.fetch <;> simp [M.throwM]

/-! ### Loop run lemmas (failure-free segments) -/

theorem deleteIdsLoop_run (env : Env) :
    ∀ (ids : List Nat) (w : World),
      (∀ j, j < ids.length → env.outcome (w.trace.length + j) ≠ Outcome.fail) →
      deleteIdsLoop env ids w =
        (Except.ok (), { w with trace := w.trace ++ ids.map Call.stDelete }) := by
  intro ids
  induction ids with
  | nil => intro w _; simp [deleteIdsLoop]
  | cons i rest ih =>
    intro w h
    have h0 : env.outcome w.trace.length ≠ Outcome.fail := by
      have := h 0 (by simp)
      simpa using this
    simp only [deleteIdsLoop, M.bind_apply, stDeleteNonJob_run, if_neg h0]
    rw [ih { w with trace := w.trace ++ [Call.stDelete i] } (by
      intro j hj
      have hb : j + 1 < (i :: rest).length := by simp; omega
      have hx := h (j + 1) hb
      simp only [List.length_append, List.length_cons, List.length_nil]
      rw [show w.trace.length + 1 + j = w.trace.length + (j + 1) by omega]
      exact hx)]
    simp

theorem rollbackLoop_run (env : Env) :
    ∀ (ids : List Nat) (w : World),
      rollbackLoop env ids w =
        (Except.ok (), { w with trace := w.trace ++ ids.map Call.stDelete }) := by
  intro ids
  induction ids with
  | nil => intro w; simp [rollbackLoop]
  | cons i rest ih =>
    intro w
    simp only [rollbackLoop, M.bind_apply, M.tryCatchM_apply, stDeleteNonJob_run]
    cases env.outcome w.trace.length <;>
      simp <;> rw [ih] <;> simp

theorem reconcilePosition_run_update (env : Env) (p : STPayload) (pid : Nat) (w : World)
    (hok : env.outcome w.trace.length = Outcome.ok) (hpid : pid ≠ 0) :
    reconcilePosition env p (some pid) w =
      (Except.ok pid, { w with trace := w.trace ++ [Call.stUpdate pid p] }) := by
  unfold reconcilePosition
  rw [if_pos (by simp [jsTruthyIdx, jsTruthyNum, hpid])]
  simp only [M.tryCatchM_apply, M.bind_apply, stUpdateNonJob_run, if_pos hok]
  simp

theorem reconcilePosition_run_create (env : Env) (p : STPayload) (prev : Option Nat) (w : World)
    (hfalse : jsTruthyIdx prev = false) (hok : env.outcome w.trace.length ≠ Outcome.fail) :
    reconcilePosition env p prev w =
      (Except.ok (env.newId w.trace.length), { w with trace := w.trace ++ [Call.stCreate p] }) := by
  unfold reconcilePosition
  rw [if_neg (by simp [hfalse])]
  rw [stCreateNonJob_run, if_neg hok]

theorem rangeMap_succ_shift {α : Type} (n : Nat) (f g : Nat → α) (x : α)
    (hx : f 0 = x) (hfg : ∀ j, j < n → f (j + 1) = g j) :
    (List.range (n + 1)).map f = x :: (List.range n).map g := by
  rw [List.range_succ_eq_map, List.map_cons, List.map_map, hx]
  congr 1
  apply List.map_congr_left
  intro j hj
  simp only [Function.comp_apply, Nat.succ_eq_add_one]
  exact hfg j (List.mem_range.mp hj)

theorem upsertLoop_run (env : Env) (previousIds : List Nat)
    (hids : ∀ id ∈ previousIds, id ≠ 0) :
    ∀ (payloads : List STPayload) (idx : Nat) (acc : List Nat) (w : World),
      (∀ j, j < payloads.length → env.outcome (w.trace.length + j) = Outcome.ok) →
      upsertLoop env previousIds payloads idx acc w =
        (Except.ok (acc ++ (List.range payloads.length).map (fun j =>
            if idx + j < previousIds.length then previousIds.getD (idx + j) 0
            else env.newId (w.trace.length + j))),
         { w with trace := w.trace ++ (List.range payloads.length).map (fun j =>
            if idx + j < previousIds.length then
              Call.stUpdate (previousIds.getD (idx + j) 0) (payloads.getD j dfltPayload)
            else Call.stCreate (payloads.getD j dfltPayload)) }) := by
  intro payloads
  induction payloads with
  | nil => intro idx acc w _; simp [upsertLoop]
  | cons p rest ih =>
    intro idx acc w h
    have h0 : env.outcome w.trace.length = Outcome.ok := by
      have := h 0 (by simp)
      simpa using this
    have htransfer : ∀ c : Call,
        ∀ j, j < rest.length →
          env.outcome (({ w with trace := w.trace ++ [c] }).trace.length + j) = Outcome.ok := by
      intro c j hj
      have hx := h (j + 1) (by simp; omega)
      simp only [List.length_append, List.length_cons, List.length_nil]
      rw [show w.trace.length + 1 + j = w.trace.length + (j + 1) by omega]
      exact hx
    by_cases hidx : idx < previousIds.length
    · have hsome : previousIds[idx]? = some (previousIds.getD idx 0) := by
        rw [List.getElem?_eq_getElem hidx]
        rw [List.getD_eq_getElem?_getD, List.getElem?_eq_getElem hidx]
        rfl
      have hpid : previousIds.getD idx 0 ≠ 0 := by
        rw [List.getD_eq_getElem?_getD, List.getElem?_eq_getElem hidx]
        exact hids _ (List.getElem_mem hidx)
      simp only [upsertLoop, hsome, M.bind_apply,
        reconcilePosition_run_update env p (previousIds.getD idx 0) w h0 hpid]
      rw [ih (idx + 1) (acc ++ [previousIds.getD idx 0])
        { w with trace := w.trace ++ [Call.stUpdate (previousIds.getD idx 0) p] }
        (htransfer _)]
      simp only [List.length_cons, List.length_append, List.length_nil]
      rw [rangeMap_succ_shift rest.length _
        (fun j => if idx + 1 + j < previousIds.length then previousIds.getD (idx + 1 + j) 0
          else env.newId (w.trace.length + 1 + j))
        (previousIds.getD idx 0)
        (by simp [hidx])
        (by
          intro j _
          rw [show idx + (j + 1) = idx + 1 + j by omega,
            show w.trace.length + (j + 1) = w.trace.length + 1 + j by omega])]
      rw [rangeMap_succ_shift rest.length _
        (fun j => if idx + 1 + j < previousIds.length then
            Call.stUpdate (previousIds.getD (idx + 1 + j) 0) (rest.getD j dfltPayload)
          else Call.stCreate (rest.getD j dfltPayload))
        (Call.stUpdate (previousIds.getD idx 0) p)
        (by simp [hidx])
        (by
          intro j _
          rw [show idx + (j + 1) = idx + 1 + j by omega]
          simp [List.getD_cons_succ])]
      simp [List.append_assoc]
    · have hnone : previousIds[idx]? = none := by
        rw [List.getElem?_eq_none]
        omega
      simp only [upsertLoop, hnone, M.bind_apply,
        reconcilePosition_run_create env p none w (by simp [jsTruthyIdx]) (by rw [h0]; simp)]
      rw [ih (idx + 1) (acc ++ [env.newId w.trace.length])
        { w with trace := w.trace ++ [Call.stCreate p] }
        (htransfer _)]
      simp only [List.length_cons, List.length_append, List.length_nil]
      rw [rangeMap_succ_shift rest.length _
        (fun j => if idx + 1 + j < previousIds.length then previousIds.getD (idx + 1 + j) 0
          else env.newId (w.trace.length + 1 + j))
        (env.newId w.trace.length)
        (by simp [hidx])
        (by
          intro j _
          rw [show idx + (j + 1) = idx + 1 + j by omega,
            show w.trace.length + (j + 1) = w.trace.length + 1 + j by omega])]
      rw [rangeMap_succ_shift rest.length _
        (fun j => if idx + 1 + j < previousIds.length then
            Call.stUpdate (previousIds.getD (idx + 1 + j) 0) (rest.getD j dfltPayload)
          else Call.stCreate (rest.getD j dfltPayload))
        (Call.stCreate p)
        (by simp [hidx])
        (by
          intro j _
          rw [show idx + (j + 1) = idx + 1 + j by omega]
          simp [List.getD_cons_succ])]
      simp [List.append_assoc]

theorem upsertServiceTitanAppointments_run_some (env : Env) (G : Globals)
    (cfg : UserConfig) (ev : NormalizedEvent) (mm : Mapping) (w : World)
    (hids : ∀ id ∈ mm.st_nonjob_ids, id ≠ 0)
    (hok : ∀ j, j < (mapEventToServiceTitanPayloads G ev cfg).length
        + (mm.st_nonjob_ids.length - (mapEventToServiceTitanPayloads G ev cfg).length) →
        env.outcome (w.trace.length + j) = Outcome.ok) :
    upsertServiceTitanAppointments env G cfg ev (some mm) w =
      (Except.ok ((List.range (mapEventToServiceTitanPayloads G ev cfg).length).map fun j =>
          if j < mm.st_nonjob_ids.length then mm.st_nonjob_ids.getD j 0
          else env.newId (w.trace.length + j)),
       { w with trace := (w.trace
          ++ (List.range (mapEventToServiceTitanPayloads G ev cfg).length).map (fun j =>
              if j < mm.st_nonjob_ids.length then
                Call.stUpdate (mm.st_nonjob_ids.getD j 0)
                  ((mapEventToServiceTitanPayloads G ev cfg).getD j dfltPayload)
              else Call.stCreate ((mapEventToServiceTitanPayloads G ev cfg).getD j dfltPayload))
          ++ (mm.st_nonjob_ids.drop (mapEventToServiceTitanPayloads G ev cfg).length).map
              Call.stDelete) }) := by
  unfold upsertServiceTitanAppointments
  simp only [M.bind_apply]
  rw [upsertLoop_run env mm.st_nonjob_ids hids (mapEventToServiceTitanPayloads G ev cfg) 0 [] w
    (fun j hj => hok j (by omega))]
  simp only [List.nil_append, Nat.zero_add]
  rw [deleteIdsLoop_run env (mm.st_nonjob_ids.drop (mapEventToServiceTitanPayloads G ev cfg).length)
    _ (by
      intro j hj
      simp only [List.length_append, List.length_map, List.length_range,
        List.length_drop] at hj ⊢
      rw [show w.trace.length + (mapEventToServiceTitanPayloads G ev cfg).length + j
          = w.trace.length + ((mapEventToServiceTitanPayloads G ev cfg).length + j) by omega]
      rw [hok ((mapEventToServiceTitanPayloads G ev cfg).length + j) (by omega)]
      simp)]
  simp [List.append_assoc, Nat.zero_add]

theorem upsertServiceTitanAppointments_run_none (env : Env) (G : Globals)
    (cfg : UserConfig) (ev : NormalizedEvent) (w : World)
    (hok : ∀ j, j < (mapEventToServiceTitanPayloads G ev cfg).length →
        env.outcome (w.trace.length + j) = Outcome.ok) :
    upsertServiceTitanAppointments env G cfg ev none w =
      (Except.ok ((List.range (mapEventToServiceTitanPayloads G ev cfg).length).map fun j =>
          env.newId (w.trace.length + j)),
       { w with trace := w.trace
          ++ (List.range (mapEventToServiceTitanPayloads G ev cfg).length).map (fun j =>
              Call.stCreate ((mapEventToServiceTitanPayloads G ev cfg).getD j dfltPayload)) }) := by
  unfold upsertServiceTitanAppointments
  simp only [M.bind_apply]
  rw [upsertLoop_run env [] (by simp) (mapEventToServiceTitanPayloads G ev cfg) 0 [] w
    (fun j hj => hok j (by omega))]
  simp [deleteIdsLoop]

/-! ### Per-event path computations -/

theorem isSyncable_not_availability {s : String} (h : isSyncableBusyOrOof s = true) :
    isAvailabilityEvent s = false := by
  simp only [isSyncableBusyOrOof, decide_eq_true_eq] at h
  simp only [isAvailabilityEvent, decide_eq_false_iff_not]
  rcases h with h | h <;> rw [h] <;> simp

theorem processNormalizedEvent_unchanged (env : Env) (G : Globals) (cfg : UserConfig)
    (ev : NormalizedEvent) (w : World)
    (hok : env.outcome w.trace.length ≠ Outcome.fail)
    (hrem : ev.isRemoved = false)
    (hstart : ev.start ≠ none) (hstop : ev.stop ≠ none)
    (hsync : isSyncableBusyOrOof ev.showAs = true)
    (hfind : ∃ p, findMappingRowIdx w.store.eventMap cfg.outlook_upn (getStableEventKey G ev)
        = some p ∧ p.2.last_hash = getEventDedupeKey G ev) :
    processNormalizedEvent env G cfg ev w =
      (Except.ok (),
       { w with
         trace := w.trace ++ [Call.emFind cfg.outlook_upn (getStableEventKey G ev)]
         summary := { w.summary with eventsSkipped := w.summary.eventsSkipped + 1 } }) := by
  obtain ⟨p, hp, hhash⟩ := hfind
  unfold processNormalizedEvent
  simp only [M.bind_apply, findEventMapping_run, if_neg hok, hp, Option.map_some]
  rw [hrem]
  simp only [Bool.false_eq_true, if_false]
  rw [if_neg (by simp [Option.ne_none_iff_isSome] at hstart hstop ⊢; simp [hstart, hstop])]
  rw [if_neg (by rw [isSyncable_not_availability hsync]; simp)]
  rw [if_neg (by rw [hsync]; simp)]
  rw [if_pos (by simp [Mapping.ofRow, hhash])]
  simp [bumpSkipped]

theorem summaryExt (a b : Summary)
    (h1 : a.calendarsProcessed = b.calendarsProcessed)
    (h2 : a.eventsFetched = b.eventsFetched)
    (h3 : a.eventsUpserted = b.eventsUpserted)
    (h4 : a.eventsSkipped = b.eventsSkipped)
    (h5 : a.errors = b.errors) : a = b := by
  cases a; cases b
  cases h1; cases h2; cases h3; cases h4; cases h5
  rfl

theorem worldExt (a b : World)
    (h1 : a.store = b.store) (h2 : a.summary = b.summary)
    (h3 : a.trace = b.trace) : a = b := by
  cases a; cases b
  cases h1; cases h2; cases h3
  rfl

theorem processEventsLoop_unchanged (env : Env) (G : Globals) (cfg : UserConfig)
    (hok : ∀ n, env.outcome n ≠ Outcome.fail) :
    ∀ (events : List NormalizedEvent) (seen : List String) (w : World),
      (∀ ev ∈ events, ev.isRemoved = false ∧ ev.start ≠ none ∧ ev.stop ≠ none
        ∧ isSyncableBusyOrOof ev.showAs = true
        ∧ (findMappingRowIdx w.store.eventMap cfg.outlook_upn
            (getStableEventKey G ev)).map (fun p => p.2.last_hash)
          = some (getEventDedupeKey G ev)) →
      ∃ tr, processEventsLoop env G cfg events seen w =
          (Except.ok (),
           { w with
             trace := w.trace ++ tr
             summary := { w.summary with
               eventsSkipped := w.summary.eventsSkipped + events.length } })
        ∧ (∀ c ∈ tr, c.isMappingRead = true) := by
  intro events
  induction events with
  | nil =>
    intro seen w _
    refine ⟨[], ?_, by simp⟩
    simp [processEventsLoop]
  | cons ev rest ih =>
    intro seen w h
    obtain ⟨hrem, hstart, hstop, hsync, hfind⟩ := h ev (List.mem_cons_self ev rest)
    have hfind' : ∃ p, findMappingRowIdx w.store.eventMap cfg.outlook_upn
        (getStableEventKey G ev) = some p ∧ p.2.last_hash = getEventDedupeKey G ev := by
      cases hf : findMappingRowIdx w.store.eventMap cfg.outlook_upn (getStableEventKey G ev) with
      | none => rw [hf] at hfind; simp at hfind
      | some p =>
        rw [hf] at hfind
        simp at hfind
        exact ⟨p, rfl, hfind⟩
    by_cases hseen : seen.contains (getEventDedupeKey G ev)
    · simp only [processEventsLoop, hseen, if_true, M.bind_apply, bumpSkipped,
        M.modifyW_apply]
      obtain ⟨tr, hrun, hclean⟩ := ih seen
        { w with summary :=
            { w.summary with eventsSkipped := w.summary.eventsSkipped + 1 } }
        (fun e he => h e (List.mem_cons_of_mem ev he))
      refine ⟨tr, ?_, hclean⟩
      rw [hrun]
      refine congrArg (Prod.mk (Except.ok ())) ?_
      apply worldExt
      · rfl
      · apply summaryExt
        · rfl
        · rfl
        · rfl
        · show w.summary.eventsSkipped + 1 + rest.length
            = w.summary.eventsSkipped + (ev :: rest).length
          simp only [List.length_cons]; omega
        · rfl
      · rfl
    · simp only [processEventsLoop, hseen, if_false, M.bind_apply, M.tryCatchM_apply,
        Bool.false_eq_true]
      rw [processNormalizedEvent_unchanged env G cfg ev w (hok _) hrem hstart hstop hsync hfind']
      dsimp only
      obtain ⟨tr, hrun, hclean⟩ := ih (seen ++ [getEventDedupeKey G ev])
        { w with
          trace := w.trace ++ [Call.emFind cfg.outlook_upn (getStableEventKey G ev)]
          summary := { w.summary with eventsSkipped := w.summary.eventsSkipped + 1 } }
        (fun e he => h e (List.mem_cons_of_mem ev he))
      refine ⟨Call.emFind cfg.outlook_upn (getStableEventKey G ev) :: tr, ?_, ?_⟩
      · rw [hrun]
        refine congrArg (Prod.mk (Except.ok ())) ?_
        apply worldExt
        · rfl
        · apply summaryExt
          · rfl
          · rfl
          · rfl
          · show w.summary.eventsSkipped + 1 + rest.length
              = w.summary.eventsSkipped + (ev :: rest).length
            simp only [List.length_cons]; omega
          · rfl
        · show (w.trace ++ [Call.emFind cfg.outlook_upn (getStableEventKey G ev)]) ++ tr
            = w.trace ++ (Call.emFind cfg.outlook_upn (getStableEventKey G ev) :: tr)
          simp
      · intro c hc
        rcases List.mem_cons.mp hc with rfl | hc'
        · rfl
        · exact hclean c hc'

/-- C2: on a batch every event of which is busy/out-of-office, complete, not
tombstoned, and whose mapping row's stored fingerprint equals its freshly
computed fingerprint, the engine only performs mapping-table reads — no
downstream create/update/delete and no store write — increments
`eventsSkipped` once per event (batch duplicates included) and leaves the
store, the upserted counter and the error list untouched. Hence re-processing
an unchanged batch a second time produces zero additional downstream calls. -/
theorem unchanged_batch_idempotent (env : Env) (G : Globals) (cfg : UserConfig)
    (raws : List RawEvent) (w : World)
    (hok : ∀ n, env.outcome n ≠ Outcome.fail)
    (hbatch : ∀ ev ∈ (raws.map (normalizeGraphEvent G)).filter (fun e => e.id ≠ ""),
      ev.isRemoved = false ∧ ev.start ≠ none ∧ ev.stop ≠ none
      ∧ isSyncableBusyOrOof ev.showAs = true
      ∧ (findMappingRowIdx w.store.eventMap cfg.outlook_upn
          (getStableEventKey G ev)).map (fun p => p.2.last_hash)
        = some (getEventDedupeKey G ev)) :
    ∃ tr, processUserEvents env G cfg raws w =
        (Except.ok (),
         { w with
           trace := w.trace ++ tr
           summary := { w.summary with
             eventsSkipped := w.summary.eventsSkipped
               + ((raws.map (normalizeGraphEvent G)).filter (fun e => e.id ≠ "")).length } })
      ∧ (∀ c ∈ tr, c.isMappingRead = true) := by
  unfold processUserEvents
  exact processEventsLoop_unchanged env G cfg hok _ [] w hbatch

theorem unchanged_batch_idempotent_witness :
    ∃ tr, processUserEvents okEnv testGlobals testCfg [rawBusy, rawBusy] (mkWorld ustore) =
        (Except.ok (),
         { mkWorld ustore with
           trace := (mkWorld ustore).trace ++ tr
           summary := { (mkWorld ustore).summary with
             eventsSkipped := (mkWorld ustore).summary.eventsSkipped
               + (([rawBusy, rawBusy].map (normalizeGraphEvent testGlobals)).filter
                   (fun e => e.id ≠ "")).length } })
      ∧ (∀ c ∈ tr, c.isMappingRead = true) :=
  unchanged_batch_idempotent okEnv testGlobals testCfg [rawBusy, rawBusy] (mkWorld ustore)
    (fun _ => by simp [okEnv]) (by decide)

theorem findMappingRowIdx_go_ge (upn key : String) :
    ∀ (i : Nat) (rows : List MappingRow) (p : Nat × MappingRow),
      findMappingRowIdx.go upn key i rows = some p → i + 2 ≤ p.1 := by
  intro i rows
  induction rows generalizing i with
  | nil => intro p h; simp [findMappingRowIdx.go] at h
  | cons r rest ih =>
    intro p h
    simp only [findMappingRowIdx.go] at h
    by_cases hc : r.outlook_upn = upn ∧ r.outlook_event_id = key
    · rw [if_pos hc] at h
      cases h
      simp
    · rw [if_neg hc] at h
      have := ih (i + 1) p h
      omega

theorem findMappingRowIdx_ge_two {rows : List MappingRow} {upn key : String}
    {p : Nat × MappingRow} (h : findMappingRowIdx rows upn key = some p) : 2 ≤ p.1 := by
  unfold findMappingRowIdx at h
  simpa using findMappingRowIdx_go_ge upn key 0 rows p h

/-- C3: for an upsert of a busy/out-of-office event with `N` day-block
payloads against an existing mapping holding `M` appointment ids (stale
fingerprint), the first `min N M` positions update the previous id in
place, positions `M..N-1` issue creates, the surplus previous ids at
positions `N..M-1` are deleted, and the mapping row is then rewritten in
place with exactly the `N` resulting ids in block order. -/
theorem upsert_positional_reuse (env : Env) (G : Globals) (cfg : UserConfig)
    (ev : NormalizedEvent) (w : World) (p : Nat × MappingRow)
    (hok : ∀ n, env.outcome n = Outcome.ok)
    (hrem : ev.isRemoved = false)
    (hstart : ev.start ≠ none) (hstop : ev.stop ≠ none)
    (hsync : isSyncableBusyOrOof ev.showAs = true)
    (hfind : findMappingRowIdx w.store.eventMap cfg.outlook_upn (getStableEventKey G ev) = some p)
    (hhash : p.2.last_hash ≠ getEventDedupeKey G ev)
    (hids : ∀ id ∈ p.2.st_nonjob_ids, id ≠ 0) :
    processNormalizedEvent env G cfg ev w =
      (Except.ok (),
       { w with
         store := { w.store with eventMap := (w.store.eventMap.set (p.1 - 2)
           { outlook_upn := cfg.outlook_upn
             outlook_event_id := getStableEventKey G ev
             st_nonjob_ids := upsertIds env (w.trace.length + 1)
               (mapEventToServiceTitanPayloads G ev cfg) p.2.st_nonjob_ids
             last_hash := getEventDedupeKey G ev
             status := statusWithGid ev.id }) }
         summary := { w.summary with eventsUpserted := w.summary.eventsUpserted + 1 }
         trace := w.trace
           ++ [Call.emFind cfg.outlook_upn (getStableEventKey G ev)]
           ++ upsertCalls (mapEventToServiceTitanPayloads G ev cfg) p.2.st_nonjob_ids
           ++ [Call.emWrite cfg.outlook_upn (getStableEventKey G ev)
                 (upsertIds env (w.trace.length + 1)
                   (mapEventToServiceTitanPayloads G ev cfg) p.2.st_nonjob_ids)
                 (getEventDedupeKey G ev) (statusWithGid ev.id) (some p.1)] })
    ∧ (upsertIds env (w.trace.length + 1) (mapEventToServiceTitanPayloads G ev cfg)
         p.2.st_nonjob_ids).length = (mapEventToServiceTitanPayloads G ev cfg).length
    ∧ (∀ j, j < (mapEventToServiceTitanPayloads G ev cfg).length →
        j < p.2.st_nonjob_ids.length →
        (upsertIds env (w.trace.length + 1) (mapEventToServiceTitanPayloads G ev cfg)
          p.2.st_nonjob_ids).getD j 0 = p.2.st_nonjob_ids.getD j 0) := by
  have hne : env.outcome w.trace.length ≠ Outcome.fail := by rw [hok]; simp
  refine ⟨?_, by simp [upsertIds], ?_⟩
  · unfold processNormalizedEvent
    simp only [M.bind_apply, findEventMapping_run, if_neg hne, hfind, Option.map_some']
    rw [hrem]
    simp only [Bool.false_eq_true, if_false]
    rw [if_neg (by simp [Option.ne_none_iff_isSome] at hstart hstop ⊢; simp [hstart, hstop])]
    rw [if_neg (by rw [isSyncable_not_availability hsync]; simp)]
    rw [if_neg (by rw [hsync]; simp)]
    rw [if_neg (by simp [Mapping.ofRow]; simpa using hhash)]
    simp only [M.bind_apply]
    rw [upsertServiceTitanAppointments_run_some env G cfg ev (Mapping.ofRow p)
      { w with trace := w.trace ++ [Call.emFind cfg.outlook_upn (getStableEventKey G ev)] }
      (by simpa [Mapping.ofRow] using hids)
      (fun j _ => hok _)]
    dsimp only
    simp only [M.tryCatchM_apply]
    rw [updateEventMapping_run]
    have hri : 2 ≤ p.1 := findMappingRowIdx_ge_two hfind
    have htruthy : jsTruthyIdx (some (Mapping.ofRow p).rowIndex) = true := by
      simp [jsTruthyIdx, jsTruthyNum, Mapping.ofRow]
      omega
    simp only [Mapping.ofRow] at htruthy ⊢
    simp only [htruthy, if_true, hok, List.length_append]
    simp only [show ∀ (α : Type) (a b : α), (if Outcome.ok = Outcome.fail then a else b) = b
      from fun _ _ _ => rfl]
    simp only [bumpUpserted, M.bind_apply, M.modifyW_apply, M.pure_apply]
    refine congrArg (Prod.mk (Except.ok ())) ?_
    apply worldExt
    · show ({ w.store with eventMap := w.store.eventMap.set ((some p.1).getD 0 - 2) _ } : Store) = _
      simp only [Option.getD_some]
      refine congrArg (fun em => ({ w.store with eventMap := em } : Store)) ?_
      refine congrArg (w.store.eventMap.set (p.1 - 2)) ?_
      simp [upsertIds, Mapping.ofRow, List.length_append]
    · rfl
    · show ((w.trace ++ [Call.emFind cfg.outlook_upn (getStableEventKey G ev)])
          ++ _ ++ _) ++ [Call.emWrite _ _ _ _ _ _] = _
      simp [upsertCalls, upsertIds, Mapping.ofRow, List.append_assoc, List.length_append]
  · intro j h1 h2
    simp [upsertIds, List.getD_eq_getElem?_getD, List.getElem?_map, List.getElem?_range, h1, h2]

theorem upsert_positional_reuse_witness :
    processNormalizedEvent okEnv testGlobals testCfg baseEvt (mkWorld store3) =
      (Except.ok (),
       { mkWorld store3 with
         store := { store3 with eventMap := (store3.eventMap.set (((2, row3) : Nat × MappingRow).1 - 2)
           { outlook_upn := testCfg.outlook_upn
             outlook_event_id := getStableEventKey testGlobals baseEvt
             st_nonjob_ids := upsertIds okEnv ((mkWorld store3).trace.length + 1)
               (mapEventToServiceTitanPayloads testGlobals baseEvt testCfg)
               ((2, row3) : Nat × MappingRow).2.st_nonjob_ids
             last_hash := getEventDedupeKey testGlobals baseEvt
             status := statusWithGid baseEvt.id }) }
         summary := { (mkWorld store3).summary with
           eventsUpserted := (mkWorld store3).summary.eventsUpserted + 1 }
         trace := (mkWorld store3).trace
           ++ [Call.emFind testCfg.outlook_upn (getStableEventKey testGlobals baseEvt)]
           ++ upsertCalls (mapEventToServiceTitanPayloads testGlobals baseEvt testCfg)
               ((2, row3) : Nat × MappingRow).2.st_nonjob_ids
           ++ [Call.emWrite testCfg.outlook_upn (getStableEventKey testGlobals baseEvt)
                 (upsertIds okEnv ((mkWorld store3).trace.length + 1)
                   (mapEventToServiceTitanPayloads testGlobals baseEvt testCfg)
                   ((2, row3) : Nat × MappingRow).2.st_nonjob_ids)
                 (getEventDedupeKey testGlobals baseEvt) (statusWithGid baseEvt.id)
                 (some ((2, row3) : Nat × MappingRow).1)] })
    ∧ (upsertIds okEnv ((mkWorld store3).trace.length + 1)
         (mapEventToServiceTitanPayloads testGlobals baseEvt testCfg)
         ((2, row3) : Nat × MappingRow).2.st_nonjob_ids).length
       = (mapEventToServiceTitanPayloads testGlobals baseEvt testCfg).length
    ∧ (∀ j, j < (mapEventToServiceTitanPayloads testGlobals baseEvt testCfg).length →
        j < ((2, row3) : Nat × MappingRow).2.st_nonjob_ids.length →
        (upsertIds okEnv ((mkWorld store3).trace.length + 1)
          (mapEventToServiceTitanPayloads testGlobals baseEvt testCfg)
          ((2, row3) : Nat × MappingRow).2.st_nonjob_ids).getD j 0
        = ((2, row3) : Nat × MappingRow).2.st_nonjob_ids.getD j 0) :=
  upsert_positional_reuse okEnv testGlobals testCfg baseEvt (mkWorld store3) (2, row3)
    (fun _ => rfl) rfl (by decide) (by decide) (by decide) (by decide) (by decide) (by decide)

/-- C4 counterexample: with an existing mapping (`row4`, one previous id) and
a two-block event, the upsert creates one brand-new downstream appointment;
when the mapping write then fails, the engine performs no rollback delete at
all (the rollback is guarded by `!existingMapping`), the error propagates,
and the upserted counter stays 0. -/
theorem mapping_write_failure_no_rollback_counterexample :
    cx4.1 = Except.error errSheetWrite
    ∧ (cx4.2.trace.filter Call.isCreate).length = 1
    ∧ (cx4.2.trace.filter Call.isDelete).length = 0
    ∧ cx4.2.summary.eventsUpserted = 0 := by decide

/-- C4 (amended): the rollback of freshly created downstream appointments on
a failed mapping write happens only when there was no previous mapping: in
that case every created appointment id receives a best-effort rollback
delete, the error propagates to the per-event boundary, and neither the
store, the upserted counter nor any other summary field changes. -/
theorem mapping_write_failure_rollback (env : Env) (G : Globals) (cfg : UserConfig)
    (ev : NormalizedEvent) (w : World)
    (hrem : ev.isRemoved = false)
    (hstart : ev.start ≠ none) (hstop : ev.stop ≠ none)
    (hsync : isSyncableBusyOrOof ev.showAs = true)
    (hfind : findMappingRowIdx w.store.eventMap cfg.outlook_upn (getStableEventKey G ev) = none)
    (hok : ∀ j, j < (mapEventToServiceTitanPayloads G ev cfg).length + 1 →
        env.outcome (w.trace.length + j) = Outcome.ok)
    (hfail : env.outcome (w.trace.length + 1 + (mapEventToServiceTitanPayloads G ev cfg).length)
        = Outcome.fail) :
    processNormalizedEvent env G cfg ev w =
      (Except.error errSheetWrite,
       { w with trace := w.trace
         ++ [Call.emFind cfg.outlook_upn (getStableEventKey G ev)]
         ++ (List.range (mapEventToServiceTitanPayloads G ev cfg).length).map (fun j =>
             Call.stCreate ((mapEventToServiceTitanPayloads G ev cfg).getD j dfltPayload))
         ++ [Call.emWrite cfg.outlook_upn (getStableEventKey G ev)
               ((List.range (mapEventToServiceTitanPayloads G ev cfg).length).map fun j =>
                 env.newId (w.trace.length + 1 + j))
               (getEventDedupeKey G ev) (statusWithGid ev.id) none]
         ++ ((List.range (mapEventToServiceTitanPayloads G ev cfg).length).map fun j =>
             env.newId (w.trace.length + 1 + j)).map Call.stDelete }) := by
  have h0 := hok 0 (by omega)
  rw [Nat.add_zero] at h0
  have hne : env.outcome w.trace.length ≠ Outcome.fail := by rw [h0]; simp
  unfold processNormalizedEvent
  simp only [M.bind_apply, findEventMapping_run, if_neg hne, hfind, Option.map_none']
  rw [hrem]
  simp only [Bool.false_eq_true, if_false]
  rw [if_neg (by simp [Option.ne_none_iff_isSome] at hstart hstop ⊢; simp [hstart, hstop])]
  rw [if_neg (by rw [isSyncable_not_availability hsync]; simp)]
  rw [if_neg (by rw [hsync]; simp)]
  simp only [M.bind_apply]
  rw [upsertServiceTitanAppointments_run_none env G cfg ev
    { w with trace := w.trace ++ [Call.emFind cfg.outlook_upn (getStableEventKey G ev)] }
    (by
      intro j hj
      simp only [List.length_append, List.length_cons, List.length_nil]
      rw [show w.trace.length + 1 + j = w.trace.length + (j + 1) by omega]
      exact hok (j + 1) (by omega))]
  dsimp only
  simp only [M.tryCatchM_apply]
  rw [updateEventMapping_run]
  dsimp only
  simp only [List.length_append, List.length_map, List.length_range, List.length_cons,
    List.length_nil, Nat.zero_add]
  rw [hfail]
  simp only [show ∀ (α : Type) (a b : α), (if Outcome.fail = Outcome.fail then a else b) = a
    from fun _ _ _ => rfl]
  simp only [M.bind_apply, rollbackLoop_run, M.throwM_apply]
  refine congrArg (Prod.mk (Except.error errSheetWrite)) ?_
  apply worldExt
  · rfl
  · rfl
  · show (((w.trace ++ [Call.emFind cfg.outlook_upn (getStableEventKey G ev)]) ++ _) ++ _) ++ _ = _
    simp only [List.length_append, List.length_cons, List.length_nil]

theorem mapping_write_failure_rollback_witness :
    processNormalizedEvent failWrite2Env testGlobals testCfg baseEvt (mkWorld emptyStore) =
      (Except.error errSheetWrite,
       { mkWorld emptyStore with trace := ((mkWorld emptyStore).trace
         ++ [Call.emFind testCfg.outlook_upn (getStableEventKey testGlobals baseEvt)]
         ++ (List.range (mapEventToServiceTitanPayloads testGlobals baseEvt testCfg).length).map
             (fun j => Call.stCreate
               ((mapEventToServiceTitanPayloads testGlobals baseEvt testCfg).getD j dfltPayload))
         ++ [Call.emWrite testCfg.outlook_upn (getStableEventKey testGlobals baseEvt)
               ((List.range
                   (mapEventToServiceTitanPayloads testGlobals baseEvt testCfg).length).map fun j =>
                 failWrite2Env.newId ((mkWorld emptyStore).trace.length + 1 + j))
               (getEventDedupeKey testGlobals baseEvt) (statusWithGid baseEvt.id) none]
         ++ ((List.range
               (mapEventToServiceTitanPayloads testGlobals baseEvt testCfg).length).map fun j =>
             failWrite2Env.newId ((mkWorld emptyStore).trace.length + 1 + j)).map
             Call.stDelete) }) :=
  mapping_write_failure_rollback failWrite2Env testGlobals testCfg baseEvt (mkWorld emptyStore)
    rfl (by decide) (by decide) (by decide) (by decide)
    (by
      intro j hj
      rw [(by decide : (mapEventToServiceTitanPayloads testGlobals baseEvt testCfg).length = 1)] at hj
      interval_cases j <;> decide)
    (by decide)

theorem findGidRowIdx_go_ge (upn gid : String) :
    ∀ (i : Nat) (rows : List MappingRow) (p : Nat × MappingRow),
      findGidRowIdx.go upn gid i rows = some p → i + 2 ≤ p.1 := by
  intro i rows
  induction rows generalizing i with
  | nil => intro p h; simp [findGidRowIdx.go] at h
  | cons r rest ih =>
    intro p h
    simp only [findGidRowIdx.go] at h
    by_cases hc : r.outlook_upn = upn ∧ r.status = statusWithGid gid
    · rw [if_pos hc] at h
      cases h
      simp
    · rw [if_neg hc] at h
      have := ih (i + 1) p h
      omega

theorem findGidRowIdx_ge_two {rows : List MappingRow} {upn gid : String}
    {p : Nat × MappingRow} (h : findGidRowIdx rows upn gid = some p) : 2 ≤ p.1 := by
  unfold findGidRowIdx at h
  simpa using findGidRowIdx_go_ge upn gid 0 rows p h

/-- C5 counterexample: for a tombstoned event whose mapping holds two
appointment ids, a failure of the first downstream delete is fatal — the
error propagates (there is no per-id catch), the second id is never
targeted, the mapping row keeps its SYNCED status and id list, and the
event is not counted as skipped. -/
theorem tombstone_delete_failure_fatal_counterexample :
    cx5.1 = Except.error errStDelete
    ∧ cx5.2.trace = [Call.emFind "tech@example.com" "uid-1:72000000:75600000",
        Call.emFindByGid "tech@example.com" "evt-1", Call.stDelete 21]
    ∧ cx5.2.summary.eventsSkipped = 0
    ∧ cx5.2.store = storeT := by decide

/-- C5 (amended): for a tombstoned event whose Graph id matches a mapping
row, when no call fails the engine targets every stored appointment id for
downstream deletion, soft-deletes the mapping row in place (status DELETED,
id list cleared, hash kept, row retained), and counts the event as skipped;
but an individual delete failure propagates (it is fatal to the rest of
this event's cleanup), unlike what the specification states. -/
theorem tombstone_deletes_all_and_soft_deletes (env : Env) (G : Globals) (cfg : UserConfig)
    (ev : NormalizedEvent) (w : World) (p : Nat × MappingRow)
    (hok : ∀ n, env.outcome n ≠ Outcome.fail)
    (hrem : ev.isRemoved = true)
    (hgid : findGidRowIdx w.store.eventMap cfg.outlook_upn ev.id = some p) :
    processNormalizedEvent env G cfg ev w =
      (Except.ok (),
       { w with
         store := { w.store with eventMap := (w.store.eventMap.set (p.1 - 2)
           { outlook_upn := cfg.outlook_upn
             outlook_event_id := p.2.outlook_event_id
             st_nonjob_ids := []
             last_hash := p.2.last_hash
             status := "DELETED" }) }
         summary := { w.summary with eventsSkipped := w.summary.eventsSkipped + 1 }
         trace := w.trace
           ++ [Call.emFind cfg.outlook_upn (getStableEventKey G ev)]
           ++ [Call.emFindByGid cfg.outlook_upn ev.id]
           ++ p.2.st_nonjob_ids.map Call.stDelete
           ++ [Call.emWrite cfg.outlook_upn p.2.outlook_event_id [] p.2.last_hash "DELETED"
                 (some p.1)] }) := by
  unfold processNormalizedEvent
  simp only [M.bind_apply, findEventMapping_run, if_neg (hok _)]
  rw [hrem]
  rw [if_pos rfl]
  simp only [M.bind_apply, findEventMappingByGraphId_run]
  simp only [if_neg (hok _), hgid, Option.map_some']
  simp only [deleteMappedEvent, M.bind_apply]
  rw [deleteIdsLoop_run env (Mapping.ofRow p).st_nonjob_ids
    { w with trace := (w.trace ++ [Call.emFind cfg.outlook_upn (getStableEventKey G ev)])
        ++ [Call.emFindByGid cfg.outlook_upn ev.id] }
    (fun j _ => hok _)]
  have hri : 2 ≤ p.1 := findGidRowIdx_ge_two hgid
  simp only [deleteEventMapping]
  rw [if_pos (by simp [jsTruthyNum, Mapping.ofRow]; omega)]
  rw [updateEventMapping_run]
  simp only [if_neg (hok _)]
  have htruthy : jsTruthyIdx (some (Mapping.ofRow p).rowIndex) = true := by
    simp [jsTruthyIdx, jsTruthyNum, Mapping.ofRow]
    omega
  simp only [Mapping.ofRow] at htruthy ⊢
  simp only [htruthy, if_true]
  simp only [bumpSkipped, M.bind_apply, M.modifyW_apply, M.pure_apply]
  refine congrArg (Prod.mk (Except.ok ())) ?_
  apply worldExt
  · rfl
  · rfl
  · show ((((w.trace ++ _) ++ _) ++ _) ++ _ : List Call) = _
    rfl

theorem tombstone_deletes_all_and_soft_deletes_witness :
    processNormalizedEvent okEnv testGlobals testCfg tombEvt (mkWorld storeT) =
      (Except.ok (),
       { mkWorld storeT with
         store := { storeT with eventMap := (storeT.eventMap.set
             (((2, rowT) : Nat × MappingRow).1 - 2)
           { outlook_upn := testCfg.outlook_upn
             outlook_event_id := ((2, rowT) : Nat × MappingRow).2.outlook_event_id
             st_nonjob_ids := []
             last_hash := ((2, rowT) : Nat × MappingRow).2.last_hash
             status := "DELETED" }) }
         summary := { (mkWorld storeT).summary with
           eventsSkipped := (mkWorld storeT).summary.eventsSkipped + 1 }
         trace := ((mkWorld storeT).trace
           ++ [Call.emFind testCfg.outlook_upn (getStableEventKey testGlobals tombEvt)]
           ++ [Call.emFindByGid testCfg.outlook_upn tombEvt.id]
           ++ ((2, rowT) : Nat × MappingRow).2.st_nonjob_ids.map Call.stDelete
           ++ [Call.emWrite testCfg.outlook_upn
                 ((2, rowT) : Nat × MappingRow).2.outlook_event_id []
                 ((2, rowT) : Nat × MappingRow).2.last_hash "DELETED"
                 (some ((2, rowT) : Nat × MappingRow).1)]) }) :=
  tombstone_deletes_all_and_soft_deletes okEnv testGlobals testCfg tombEvt (mkWorld storeT)
    (2, rowT) (fun _ => by simp [okEnv]) rfl (by decide)

theorem frame_pure {α : Type} (a : α) : Frame (pure a : M α) := by
  intro w
  exact ⟨[], by simp [M.pure_apply], by simp, rfl, rfl⟩

theorem frame_throwM {α : Type} (msg : String) : Frame (M.throwM msg : M α) := by
  intro w
  exact ⟨[], by simp [M.throwM_apply], by simp, rfl, rfl⟩

theorem frame_getW : Frame M.getW := by
  intro w
  exact ⟨[], by simp [M.getW_apply], by simp, rfl, rfl⟩

theorem frame_extCall (env : Env) (c : Call) (h : c.isDeltaWrite = false) :
    Frame (extCall env c) := by
  intro w
  refine ⟨[c], by simp [extCall_apply], ?_, rfl, rfl⟩
  intro c' hc'
  rcases List.mem_singleton.mp hc' with rfl
  exact h

theorem frame_bind {α β : Type} {ma : M α} {f : α → M β}
    (ha : Frame ma) (hf : ∀ a, Frame (f a)) : Frame (ma >>= f) := by
  intro w
  obtain ⟨t₁, ht₁, hn₁, hd₁, hs₁⟩ := ha w
  rcases hma : ma w with ⟨r, w₁⟩
  rw [hma] at ht₁ hd₁ hs₁
  dsimp only at ht₁ hd₁ hs₁
  cases r with
  | ok a =>
    obtain ⟨t₂, ht₂, hn₂, hd₂, hs₂⟩ := hf a w₁
    refine ⟨t₁ ++ t₂, ?_, ?_, ?_, ?_⟩
    · simp only [M.bind_apply, hma]
      rw [ht₂, ht₁, List.append_assoc]
    · intro c hc
      rcases List.mem_append.mp hc with hc | hc
      · exact hn₁ c hc
      · exact hn₂ c hc
    · simp only [M.bind_apply, hma]
      rw [hd₂, hd₁]
    · simp only [M.bind_apply, hma]
      rw [hs₂, hs₁]
  | error e =>
    refine ⟨t₁, ?_, hn₁, ?_, ?_⟩
    · simp only [M.bind_apply, hma]
      exact ht₁
    · simp only [M.bind_apply, hma]
      exact hd₁
    · simp only [M.bind_apply, hma]
      exact hs₁

theorem frame_tryCatch {α : Type} {body : M α} {handler : String → M α}
    (hb : Frame body) (hh : ∀ e, Frame (handler e)) : Frame (M.tryCatchM body handler) := by
  intro w
  obtain ⟨t₁, ht₁, hn₁, hd₁, hs₁⟩ := hb w
  rcases hma : body w with ⟨r, w₁⟩
  rw [hma] at ht₁ hd₁ hs₁
  dsimp only at ht₁ hd₁ hs₁
  cases r with
  | ok a =>
    refine ⟨t₁, ?_, hn₁, ?_, ?_⟩ <;> simp only [M.tryCatchM_apply, hma] <;> assumption
  | error e =>
    obtain ⟨t₂, ht₂, hn₂, hd₂, hs₂⟩ := hh e w₁
    refine ⟨t₁ ++ t₂, ?_, ?_, ?_, ?_⟩
    · simp only [M.tryCatchM_apply, hma]
      rw [ht₂, ht₁, List.append_assoc]
    · intro c hc
      rcases List.mem_append.mp hc with hc | hc
      · exact hn₁ c hc
      · exact hn₂ c hc
    · simp only [M.tryCatchM_apply, hma]
      rw [hd₂, hd₁]
    · simp only [M.tryCatchM_apply, hma]
      rw [hs₂, hs₁]

theorem frame_modify_store (f : Store → Store)
    (hf : ∀ st, (f st).deltaRows = st.deltaRows) :
    Frame (M.modifyW fun w => { w with store := f w.store }) := by
  intro w
  exact ⟨[], by simp [M.modifyW_apply], by simp, hf w.store, rfl⟩

theorem frame_stCreateNonJob (env : Env) (p : STPayload) : Frame (stCreateNonJob env p) := by
  intro w
  rw [stCreateNonJob_run]
  exact ⟨[Call.stCreate p], rfl, by simp [Call.isDeltaWrite], rfl, rfl⟩

theorem frame_stUpdateNonJob (env : Env) (i : Nat) (p : STPayload) :
    Frame (stUpdateNonJob env i p) := by
  intro w
  rw [stUpdateNonJob_run]
  exact ⟨[Call.stUpdate i p], rfl, by simp [Call.isDeltaWrite], rfl, rfl⟩

theorem frame_stDeleteNonJob (env : Env) (i : Nat) : Frame (stDeleteNonJob env i) := by
  intro w
  rw [stDeleteNonJob_run]
  exact ⟨[Call.stDelete i], rfl, by simp [Call.isDeltaWrite], rfl, rfl⟩

theorem frame_findEventMapping (env : Env) (upn key : String) :
    Frame (findEventMapping env upn key) := by
  intro w
  rw [findEventMapping_run]
  exact ⟨[Call.emFind upn key], rfl, by simp [Call.isDeltaWrite], rfl, rfl⟩

theorem frame_findEventMappingByGraphId (env : Env) (upn gid : String) :
    Frame (findEventMappingByGraphId env upn gid) := by
  intro w
  rw [findEventMappingByGraphId_run]
  exact ⟨[Call.emFindByGid upn gid], rfl, by simp [Call.isDeltaWrite], rfl, rfl⟩

theorem frame_updateEventMapping (env : Env) (upn key : String) (ids : List Nat)
    (hash status : String) (ri : Option Nat) :
    Frame (updateEventMapping env upn key ids hash status ri) := by
  intro w
  rw [updateEventMapping_run]
  refine ⟨[Call.emWrite upn key ids hash status ri], rfl, by simp [Call.isDeltaWrite], ?_, rfl⟩
  cases h : env.outcome w.trace.length <;> simp [h]

theorem frame_deleteIdsLoop (env : Env) : ∀ ids : List Nat, Frame (deleteIdsLoop env ids) := by
  intro ids
  induction ids with
  | nil => exact frame_pure ()
  | cons i rest ih =>
    show Frame (stDeleteNonJob env i >>= fun _ => deleteIdsLoop env rest)
    exact frame_bind (frame_stDeleteNonJob env i) (fun _ => ih)

theorem frame_deleteEventMapping (env : Env) (upn key : String) (em : Option Mapping) :
    Frame (deleteEventMapping env upn key em) := by
  cases em with
  | none => exact frame_pure ()
  | some m =>
    show Frame (if jsTruthyNum m.rowIndex then _ else _)
    by_cases h : jsTruthyNum m.rowIndex = true
    · rw [if_pos h]
      exact frame_updateEventMapping env upn key [] m.last_hash "DELETED" (some m.rowIndex)
    · rw [if_neg h]
      exact frame_pure ()

theorem frame_deleteMappedEvent (env : Env) (upn key : String) (m : Mapping) :
    Frame (deleteMappedEvent env upn key m) := by
  show Frame (deleteIdsLoop env m.st_nonjob_ids >>= fun _ => deleteEventMapping env upn key (some m))
  exact frame_bind (frame_deleteIdsLoop env m.st_nonjob_ids)
    (fun _ => frame_deleteEventMapping env upn key (some m))

theorem frame_reconcilePosition (env : Env) (p : STPayload) (prev : Option Nat) :
    Frame (reconcilePosition env p prev) := by
  unfold reconcilePosition
  by_cases h : jsTruthyIdx prev = true
  · rw [if_pos h]
    refine frame_tryCatch (frame_bind (frame_stUpdateNonJob env (prev.getD 0) p)
      (fun _ => frame_pure (prev.getD 0))) (fun e => ?_)
    exact frame_bind (frame_stCreateNonJob env p) (fun i =>
      frame_bind (frame_tryCatch (frame_stDeleteNonJob env (prev.getD 0))
        (fun _ => frame_pure ())) (fun _ => frame_pure i))
  · rw [if_neg h]
    exact frame_stCreateNonJob env p

theorem frame_upsertLoop (env : Env) (previousIds : List Nat) :
    ∀ (payloads : List STPayload) (idx : Nat) (acc : List Nat),
      Frame (upsertLoop env previousIds payloads idx acc) := by
  intro payloads
  induction payloads with
  | nil => intro idx acc; exact frame_pure acc
  | cons p rest ih =>
    intro idx acc
    show Frame (reconcilePosition env p previousIds[idx]? >>= fun i =>
      upsertLoop env previousIds rest (idx + 1) (acc ++ [i]))
    exact frame_bind (frame_reconcilePosition env p previousIds[idx]?)
      (fun i => ih (idx + 1) (acc ++ [i]))

theorem frame_upsertServiceTitanAppointments (env : Env) (G : Globals) (cfg : UserConfig)
    (ev : NormalizedEvent) (em : Option Mapping) :
    Frame (upsertServiceTitanAppointments env G cfg ev em) := by
  unfold upsertServiceTitanAppointments
  exact frame_bind (frame_upsertLoop env _ _ 0 []) (fun ids =>
    frame_bind (frame_deleteIdsLoop env _) (fun _ => frame_pure ids))

theorem frame_rollbackLoop (env : Env) : ∀ ids : List Nat, Frame (rollbackLoop env ids) := by
  intro ids
  induction ids with
  | nil => exact frame_pure ()
  | cons i rest ih =>
    show Frame (M.tryCatchM (stDeleteNonJob env i) (fun _ => pure ()) >>= fun _ =>
      rollbackLoop env rest)
    exact frame_bind (frame_tryCatch (frame_stDeleteNonJob env i) (fun _ => frame_pure ()))
      (fun _ => ih)

theorem bumps1_bumpSkipped : Bumps1 bumpSkipped := by
  intro w
  refine ⟨[], by simp [bumpSkipped, M.modifyW_apply], by simp, rfl, rfl, rfl, rfl, ?_, ?_⟩
  · intro _
    show w.summary.eventsSkipped + 1 + w.summary.eventsUpserted
      = w.summary.eventsSkipped + w.summary.eventsUpserted + 1
    omega
  · intro h
    simp [bumpSkipped, M.modifyW_apply, exOk] at h

theorem bumps1_bumpUpserted : Bumps1 bumpUpserted := by
  intro w
  refine ⟨[], by simp [bumpUpserted, M.modifyW_apply], by simp, rfl, rfl, rfl, rfl, ?_, ?_⟩
  · intro _
    rfl
  · intro h
    simp [bumpUpserted, M.modifyW_apply, exOk] at h

theorem bumps1_of_frame_bind {α β : Type} {ma : M α} {f : α → M β}
    (ha : Frame ma) (hf : ∀ a, Bumps1 (f a)) : Bumps1 (ma >>= f) := by
  intro w
  obtain ⟨t₁, ht₁, hn₁, hd₁, hs₁⟩ := ha w
  rcases hma : ma w with ⟨r, w₁⟩
  rw [hma] at ht₁ hd₁ hs₁
  dsimp only at ht₁ hd₁ hs₁
  cases r with
  | ok a =>
    obtain ⟨t₂, ht₂, hn₂, hd₂, he₂, hfe₂, hc₂, hok₂, herr₂⟩ := hf a w₁
    refine ⟨t₁ ++ t₂, ?_, ?_, ?_, ?_, ?_, ?_, ?_, ?_⟩ <;>
      (try simp only [M.bind_apply, hma])
    · rw [ht₂, ht₁, List.append_assoc]
    · intro c hc
      rcases List.mem_append.mp hc with hc | hc
      · exact hn₁ c hc
      · exact hn₂ c hc
    · rw [hd₂, hd₁]
    · rw [he₂, hs₁]
    · rw [hfe₂, hs₁]
    · rw [hc₂, hs₁]
    · intro hk
      rw [hok₂ hk, hs₁]
    · intro hk
      rw [herr₂ hk, hs₁]
  | error e =>
    refine ⟨t₁, ?_, hn₁, ?_, ?_, ?_, ?_, ?_, ?_⟩ <;>
      (try simp only [M.bind_apply, hma])
    · exact ht₁
    · exact hd₁
    · rw [hs₁]
    · rw [hs₁]
    · rw [hs₁]
    · intro hk
      simp [exOk] at hk
    · intro _
      exact hs₁

theorem bumps1_processNormalizedEvent (env : Env) (G : Globals) (cfg : UserConfig)
    (ev : NormalizedEvent) : Bumps1 (processNormalizedEvent env G cfg ev) := by
  unfold processNormalizedEvent
  apply bumps1_of_frame_bind (frame_findEventMapping env cfg.outlook_upn _)
  intro em
  by_cases hrem : ev.isRemoved = true
  · rw [if_pos hrem]
    apply bumps1_of_frame_bind (frame_findEventMappingByGraphId env cfg.outlook_upn ev.id)
    intro mg
    cases mg with
    | some m =>
      exact bumps1_of_frame_bind
        (frame_deleteMappedEvent env cfg.outlook_upn m.outlook_event_id m)
        (fun _ => bumps1_bumpSkipped)
    | none => exact bumps1_bumpSkipped
  · rw [if_neg hrem]
    by_cases hs : (ev.start = none ∨ ev.stop = none)
    · rw [if_pos hs]
      exact bumps1_bumpSkipped
    · rw [if_neg hs]
      by_cases hav : isAvailabilityEvent ev.showAs = true
      · rw [if_pos hav]
        refine bumps1_of_frame_bind ?_ (fun _ => bumps1_bumpSkipped)
        cases em with
        | some m => exact frame_deleteMappedEvent env cfg.outlook_upn (getStableEventKey G ev) m
        | none => exact frame_pure ()
      · rw [if_neg hav]
        by_cases hsy : ¬ isSyncableBusyOrOof ev.showAs = true
        · rw [if_pos hsy]
          refine bumps1_of_frame_bind ?_ (fun _ => bumps1_bumpSkipped)
          cases em with
          | some m => exact frame_deleteMappedEvent env cfg.outlook_upn (getStableEventKey G ev) m
          | none => exact frame_pure ()
        · rw [if_neg hsy]
          by_cases hh : (match em with
            | some m => decide (m.last_hash = getEventDedupeKey G ev)
            | none => false) = true
          · rw [if_pos hh]
            exact bumps1_bumpSkipped
          · rw [if_neg hh]
            apply bumps1_of_frame_bind (frame_upsertServiceTitanAppointments env G cfg ev em)
            intro ids
            refine bumps1_of_frame_bind ?_ (fun _ => bumps1_bumpUpserted)
            refine frame_tryCatch (frame_updateEventMapping env cfg.outlook_upn _ ids _ _ _)
              (fun e => ?_)
            refine frame_bind ?_ (fun _ => frame_throwM e)
            cases em with
            | none => exact frame_rollbackLoop env ids
            | some m => exact frame_pure ()

theorem processEventsLoop_frame (env : Env) (G : Globals) (cfg : UserConfig) :
    ∀ (events : List NormalizedEvent) (seen : List String) (w : World),
      (processEventsLoop env G cfg events seen w).1 = Except.ok ()
      ∧ (∃ t, (processEventsLoop env G cfg events seen w).2.trace = w.trace ++ t
          ∧ ∀ c ∈ t, c.isDeltaWrite = false)
      ∧ (processEventsLoop env G cfg events seen w).2.store.deltaRows = w.store.deltaRows
      ∧ summaryAccounted (processEventsLoop env G cfg events seen w).2.summary
          = summaryAccounted w.summary + events.length
      ∧ (processEventsLoop env G cfg events seen w).2.summary.eventsFetched
          = w.summary.eventsFetched
      ∧ (processEventsLoop env G cfg events seen w).2.summary.calendarsProcessed
          = w.summary.calendarsProcessed := by
  intro events
  induction events with
  | nil =>
    intro seen w
    refine ⟨rfl, ⟨[], by simp [processEventsLoop], by simp⟩, rfl, ?_, rfl, rfl⟩
    simp [processEventsLoop]
  | cons ev rest ih =>
    intro seen w
    by_cases hseen : seen.contains (getEventDedupeKey G ev) = true
    · have hrun : processEventsLoop env G cfg (ev :: rest) seen w
          = processEventsLoop env G cfg rest seen
            { w with summary :=
                { w.summary with eventsSkipped := w.summary.eventsSkipped + 1 } } := by
        simp only [processEventsLoop, hseen, if_true, M.bind_apply, bumpSkipped,
          M.modifyW_apply]
      obtain ⟨h1, ⟨t, ht, hn⟩, hd, ha, hf, hc⟩ := ih seen
        { w with summary := { w.summary with eventsSkipped := w.summary.eventsSkipped + 1 } }
      rw [hrun]
      refine ⟨h1, ⟨t, ht, hn⟩, hd, ?_, hf, hc⟩
      rw [ha]
      show summaryAccounted { w.summary with eventsSkipped := w.summary.eventsSkipped + 1 }
          + rest.length = _
      simp only [summaryAccounted, List.length_cons]
      omega
    · have hsf : seen.contains (getEventDedupeKey G ev) = false := by
        rwa [Bool.not_eq_true] at hseen
      obtain ⟨t₁, ht₁, hn₁, hd₁, he₁, hfe₁, hc₁, hok₁, herr₁⟩ :=
        bumps1_processNormalizedEvent env G cfg ev w
      rcases hp : processNormalizedEvent env G cfg ev w with ⟨r, w₁⟩
      rw [hp] at ht₁ hd₁ he₁ hfe₁ hc₁ hok₁ herr₁
      dsimp only at ht₁ hd₁ he₁ hfe₁ hc₁ hok₁ herr₁
      cases r with
      | ok a =>
        have hacc : summaryAccounted w₁.summary = summaryAccounted w.summary + 1 := by
          have hx := hok₁ rfl
          simp only [summaryAccounted]
          rw [he₁]
          omega
        have hrun : processEventsLoop env G cfg (ev :: rest) seen w
            = processEventsLoop env G cfg rest (seen ++ [getEventDedupeKey G ev]) w₁ := by
          simp only [processEventsLoop, hsf, Bool.false_eq_true, if_false, M.bind_apply,
            M.tryCatchM_apply, hp]
        obtain ⟨h1, ⟨t₂, ht₂, hn₂⟩, hd₂, ha₂, hf₂, hc₂⟩ :=
          ih (seen ++ [getEventDedupeKey G ev]) w₁
        rw [hrun]
        refine ⟨h1, ⟨t₁ ++ t₂, ?_, ?_⟩, ?_, ?_, ?_, ?_⟩
        · rw [ht₂, ht₁, List.append_assoc]
        · intro c hc
          rcases List.mem_append.mp hc with h | h
          · exact hn₁ c h
          · exact hn₂ c h
        · rw [hd₂, hd₁]
        · rw [ha₂, hacc, List.length_cons]
          omega
        · rw [hf₂, hfe₁]
        · rw [hc₂, hc₁]
      | error e =>
        have hsum₁ : w₁.summary = w.summary := herr₁ rfl
        have hrun : processEventsLoop env G cfg (ev :: rest) seen w
            = processEventsLoop env G cfg rest (seen ++ [getEventDedupeKey G ev])
              { w₁ with summary := { w₁.summary with errors := w₁.summary.errors
                  ++ [{ userUpn := cfg.outlook_upn, eventId := some ev.id, message := e }] } } := by
          simp only [processEventsLoop, hsf, Bool.false_eq_true, if_false, M.bind_apply,
            M.tryCatchM_apply, hp, pushError, M.modifyW_apply]
        obtain ⟨h1, ⟨t₂, ht₂, hn₂⟩, hd₂, ha₂, hf₂, hc₂⟩ :=
          ih (seen ++ [getEventDedupeKey G ev])
            { w₁ with summary := { w₁.summary with errors := w₁.summary.errors
                ++ [{ userUpn := cfg.outlook_upn, eventId := some ev.id, message := e }] } }
        rw [hrun]
        refine ⟨h1, ⟨t₁ ++ t₂, ?_, ?_⟩, ?_, ?_, ?_, ?_⟩
        · rw [ht₂]
          show w₁.trace ++ t₂ = w.trace ++ (t₁ ++ t₂)
          rw [ht₁, List.append_assoc]
        · intro c hc
          rcases List.mem_append.mp hc with h | h
          · exact hn₁ c h
          · exact hn₂ c h
        · rw [hd₂]
          exact hd₁
        · rw [ha₂]
          show summaryAccounted { w₁.summary with errors := w₁.summary.errors
              ++ [{ userUpn := cfg.outlook_upn, eventId := some ev.id, message := e }] }
            + rest.length = _
          rw [hsum₁]
          simp only [summaryAccounted, List.length_cons, List.length_append, List.length_nil]
          omega
        · rw [hf₂]
          show w₁.summary.eventsFetched = _
          rw [hsum₁]
        · rw [hc₂]
          show w₁.summary.calendarsProcessed = _
          rw [hsum₁]

theorem cursorFrame_of_frame {α : Type} {m : M α} (h : Frame m) : CursorFrame m := by
  intro w
  obtain ⟨t, ht, hn, hd, _⟩ := h w
  exact ⟨t, ht, hn, hd⟩

theorem cursorLast_pure {α : Type} (a : α) : CursorLast (pure a : M α) := by
  intro w
  exact ⟨[], by simp [M.pure_apply], by intro pre c post h _; simp at h, fun _ => rfl⟩

theorem frame_getDeltaState (env : Env) (upn : String) : Frame (getDeltaState env upn) := by
  intro w
  rw [getDeltaState_run]
  exact ⟨[Call.deltaRead upn], rfl, by simp [Call.isDeltaWrite], rfl, rfl⟩

theorem frame_getDeltaEvents (env : Env) (upn : String) (dl : Option String) :
    Frame (getDeltaEvents env upn dl) := by
  intro w
  rw [getDeltaEvents_run]
  exact ⟨[Call.graphDelta upn dl], rfl, by simp [Call.isDeltaWrite], rfl, rfl⟩

theorem cursorFrame_modify_summary (f : Summary → Summary) :
    CursorFrame (M.modifyW fun w => { w with summary := f w.summary }) := by
  intro w
  exact ⟨[], by simp [M.modifyW_apply], by simp, rfl⟩

theorem cursorFrame_processUserEvents (env : Env) (G : Globals) (cfg : UserConfig)
    (raws : List RawEvent) : CursorFrame (processUserEvents env G cfg raws) := by
  intro w
  obtain ⟨_, ⟨t, ht, hn⟩, hd, _, _, _⟩ := processEventsLoop_frame env G cfg
    ((raws.map (normalizeGraphEvent G)).filter fun e => e.id ≠ "") [] w
  exact ⟨t, ht, hn, hd⟩

theorem cursorLast_of_frame_bind {α β : Type} {ma : M α} {f : α → M β}
    (ha : CursorFrame ma) (hf : ∀ a, CursorLast (f a)) : CursorLast (ma >>= f) := by
  intro w
  obtain ⟨t₁, ht₁, hn₁, hd₁⟩ := ha w
  rcases hma : ma w with ⟨r, w₁⟩
  rw [hma] at ht₁ hd₁
  dsimp only at ht₁ hd₁
  cases r with
  | ok a =>
    obtain ⟨t₂, ht₂, hi₂, hd₂⟩ := hf a w₁
    refine ⟨t₁ ++ t₂, ?_, ?_, ?_⟩
    · simp only [M.bind_apply, hma]
      rw [ht₂, ht₁, List.append_assoc]
    · intro pre c post heq hw
      rcases List.append_eq_append_iff.mp heq.symm with ⟨k, hk1, hk2⟩ | ⟨k, hk1, hk2⟩
      · cases k with
        | nil =>
          exact hi₂ [] c post (by simpa using hk2.symm) hw
        | cons c' k' =>
          exfalso
          have h2 := hk2
          simp only [List.cons_append] at h2
          have hcc := List.cons_eq_cons.mp h2
          have hmem : c' ∈ t₁ := by
            rw [hk1]
            simp
          rw [← hcc.1] at hmem
          rw [hn₁ c hmem] at hw
          cases hw
      · exact hi₂ k c post hk2 hw
    · intro hno
      have hno₁ : ∀ c ∈ t₁, c.isDeltaWrite = false := by
        intro c hc
        exact hno c (by simp only [List.mem_append]; exact Or.inl hc)
      have hno₂ : ∀ c ∈ t₂, c.isDeltaWrite = false := by
        intro c hc
        exact hno c (by simp only [List.mem_append]; exact Or.inr hc)
      simp only [M.bind_apply, hma]
      rw [hd₂ hno₂, hd₁]
  | error e =>
    refine ⟨t₁, ?_, ?_, ?_⟩
    · simp only [M.bind_apply, hma]
      exact ht₁
    · intro pre c post heq hw
      exfalso
      have hmem : c ∈ t₁ := by
        rw [heq]
        simp
      rw [hn₁ c hmem] at hw
      cases hw
    · intro _
      simp only [M.bind_apply, hma]
      exact hd₁

theorem cursorLast_tail (env : Env) (upn link : String) (ri : Option Nat) :
    CursorLast (updateDeltaState env upn link ri >>= fun _ =>
      M.getW >>= fun w => pure w.summary) := by
  intro w
  refine ⟨[Call.deltaWrite upn link ri], ?_, ?_, ?_⟩
  · simp only [M.bind_apply, updateDeltaState_run]
    cases h : env.outcome w.trace.length <;> simp
  · intro pre c post heq _
    cases pre with
    | nil =>
      simp only [List.nil_append, List.cons_eq_cons] at heq
      exact heq.2.symm
    | cons p pre' =>
      simp only [List.cons_append, List.cons_eq_cons] at heq
      exact absurd heq.2 (by simp)
  · intro hno
    have := hno (Call.deltaWrite upn link ri) (by simp)
    simp [Call.isDeltaWrite] at this

/-- C1: in every per-user delta sync run, a continuation-cursor write can
only be the very last external call of the run — every mapping-store write
and every downstream call of the batch walk strictly precedes it — and a
run whose trace contains no cursor write (in particular any run aborted
mid-batch) leaves the stored cursor rows untouched, so a crash mid-batch
retries with the same cursor. -/
theorem cursor_advance_only_after_batch (env : Env) (G : Globals) (userUpn : String)
    (cfg : UserConfig) (w : World) :
    ∃ t, (runDeltaSyncForUser env G userUpn (some cfg) w).2.trace = w.trace ++ t
      ∧ (∀ pre c post, t = pre ++ c :: post → c.isDeltaWrite = true → post = [])
      ∧ ((∀ c ∈ t, c.isDeltaWrite = false) →
          (runDeltaSyncForUser env G userUpn (some cfg) w).2.store.deltaRows
            = w.store.deltaRows) := by
  have h : CursorLast (runDeltaSyncForUser env G userUpn (some cfg)) := by
    unfold runDeltaSyncForUser
    apply cursorLast_of_frame_bind (cursorFrame_modify_summary (fun _ => createSummary))
    intro _
    apply cursorLast_of_frame_bind (cursorFrame_of_frame (frame_pure (some cfg)))
    intro uc
    cases uc with
    | none =>
      exact cursorLast_of_frame_bind (cursorFrame_of_frame frame_getW)
        (fun w' => cursorLast_pure w'.summary)
    | some c =>
      apply cursorLast_of_frame_bind (cursorFrame_of_frame (frame_getDeltaState env userUpn))
      intro ds
      apply cursorLast_of_frame_bind
        (cursorFrame_of_frame (frame_getDeltaEvents env userUpn ds.delta_link))
      intro fetched
      apply cursorLast_of_frame_bind (cursorFrame_modify_summary
        (fun s => { s with calendarsProcessed := 1, eventsFetched := fetched.1.length }))
      intro _
      apply cursorLast_of_frame_bind (cursorFrame_processUserEvents env G c fetched.1)
      intro _
      exact cursorLast_tail env userUpn fetched.2 ds.rowIndex
  exact h w

/-- C10: in every per-user run that returns a summary, each fetched event
whose normalized form has a non-empty id contributes exactly one of an
eventsSkipped increment, an eventsUpserted increment, or one appended error
record — so eventsSkipped + eventsUpserted + errors.length equals the
number of fetched events with a non-empty id (batch duplicates included,
counted as skipped); events normalizing to an empty id are counted in
eventsFetched but in none of the other counters, and exactly one calendar
is processed. -/
theorem summary_accounting (env : Env) (G : Globals) (userUpn : String) (cfg : UserConfig)
    (w : World) (raws : List RawEvent) (link : String) (s : Summary)
    (hfetch : env.fetch = Except.ok (raws, link))
    (hres : (runDeltaSyncForUser env G userUpn (some cfg) w).1 = Except.ok s) :
    s.eventsSkipped + s.eventsUpserted + s.errors.length
      = ((raws.map (normalizeGraphEvent G)).filter (fun e => e.id ≠ "")).length
    ∧ s.eventsFetched = raws.length
    ∧ s.calendarsProcessed = 1 := by
  unfold runDeltaSyncForUser at hres
  simp only [M.bind_apply, M.modifyW_apply, M.pure_apply] at hres
  rw [getDeltaState_run] at hres
  try dsimp only at hres
  by_cases h1 : env.outcome w.trace.length = Outcome.fail
  · rw [h1] at hres
    simp only [show ∀ (α : Type) (a b : α), (if Outcome.fail = Outcome.fail then a else b) = a
      from fun _ _ _ => rfl] at hres
    simp at hres
  · rw [if_neg h1] at hres
    try dsimp only at hres
    rw [getDeltaEvents_run] at hres
    rw [hfetch] at hres
    try dsimp only at hres
    unfold processUserEvents at hres
    try dsimp only at hres
    rcases hloop : processEventsLoop env G cfg
        ((raws.map (normalizeGraphEvent G)).filter fun e => e.id ≠ "") []
        { store := w.store
          summary := { calendarsProcessed := 1
                       eventsFetched := raws.length
                       eventsUpserted := createSummary.eventsUpserted
                       eventsSkipped := createSummary.eventsSkipped
                       errors := createSummary.errors }
          trace := (w.trace ++ [Call.deltaRead userUpn] ++
            [Call.graphDelta userUpn
              (match findDeltaRowIdx w.store.deltaRows userUpn with
                | some p => ({ rowIndex := some p.1, delta_link := some p.2.delta_link } : DeltaState)
                | none => ({ rowIndex := none, delta_link := none } : DeltaState)).delta_link]) }
      with ⟨rpu, w₄⟩
    obtain ⟨hok', ⟨t, ht, hn⟩, hd, ha, hf, hc⟩ := processEventsLoop_frame env G cfg
      ((raws.map (normalizeGraphEvent G)).filter fun e => e.id ≠ "") []
      { store := w.store
        summary := { calendarsProcessed := 1
                     eventsFetched := raws.length
                     eventsUpserted := createSummary.eventsUpserted
                     eventsSkipped := createSummary.eventsSkipped
                     errors := createSummary.errors }
        trace := (w.trace ++ [Call.deltaRead userUpn] ++
          [Call.graphDelta userUpn
            (match findDeltaRowIdx w.store.deltaRows userUpn with
              | some p => ({ rowIndex := some p.1, delta_link := some p.2.delta_link } : DeltaState)
              | none => ({ rowIndex := none, delta_link := none } : DeltaState)).delta_link]) }
    rw [hloop] at hres hok' ha hf hc
    dsimp only at hres hok' ha hf hc
    rw [hok'] at hres
    try dsimp only at hres
    rw [updateDeltaState_run] at hres
    by_cases h2 : env.outcome w₄.trace.length = Outcome.fail
    · rw [h2] at hres
      simp only [show ∀ (α : Type) (a b : α), (if Outcome.fail = Outcome.fail then a else b) = a
        from fun _ _ _ => rfl] at hres
      simp at hres
    · rw [if_neg h2] at hres
      dsimp only at hres
      have hs : w₄.summary = s := by
        exact Except.ok.inj hres
      subst hs
      refine ⟨?_, ?_, ?_⟩
      · have ha' := ha
        simp only [summaryAccounted, createSummary] at ha'
        simpa [summaryAccounted] using ha'
      · rw [hf]
      · rw [hc]

theorem summary_accounting_witness :
    sWit.eventsSkipped + sWit.eventsUpserted + sWit.errors.length
      = (([rawBusy, rawNoId].map (normalizeGraphEvent testGlobals)).filter
          (fun e => e.id ≠ "")).length
    ∧ sWit.eventsFetched = [rawBusy, rawNoId].length
    ∧ sWit.calendarsProcessed = 1 :=
  summary_accounting fetchEnv testGlobals "tech@example.com" testCfg (mkWorld ustore)
    [rawBusy, rawNoId] "link-2" sWit rfl (by decide)
